import Mathlib

/-!
# Object-file extraction in `compile_c_to_hex.c`

A shallow embedding of `app/tcc-wrapper/compile_c_to_hex.c`: the section walk of
`compile_and_get_text`, the symbol walk of `extract_symbols`, and the read-only-data
store (`extract_rodata`, `get_rodata_data`, `get_rodata_base`).

Conventions of the embedding.

* The loaded file is a `List Byte`. Every read the C code performs through a pointer
  into that buffer is a read of the list; a read that leaves the buffer is undefined
  behaviour in C and is `none` here, and `none` propagates: a call with an undefined
  read has no defined result.
* Struct fields are decoded at their ELF64 offsets, little-endian (the target of the
  wrapper is little-endian), one field at a time, exactly the fields the code reads.
* `int` is 32 bits wide and `size_t` is 32 bits wide (the emscripten target the file
  is written for); conversions are made explicit by `to_int32` and `to_size_t`.
* `malloc` is modelled as succeeding with a non-null pointer, also for size zero.
* `fprintf` to `stderr` is modelled by the values it prints where a property is about
  them, and by the reads it performs (`%s` reads a string up to its terminator).
-/

namespace Tcc

/-- One byte of a loaded object file. -/
abbrev Byte := Fin 256

/-! ## Memory reads -/

/-- Value of a byte sequence read as a little-endian unsigned integer. -/
def le_value : List Byte → Nat
  | [] => 0
  | b :: bs => b.val + 256 * le_value bs

/-- The `n` bytes at offsets `[off, off + n)` of the buffer, or `none` when the range
leaves the buffer. -/
def slice (elf : List Byte) (off n : Nat) : Option (List Byte) :=
  if off + n ≤ elf.length then some ((elf.drop off).take n) else none

/-- An `n`-byte little-endian unsigned field at offset `off`. -/
def read_le (elf : List Byte) (off n : Nat) : Option Nat :=
  (slice elf off n).map le_value

/-- The bytes of a NUL-terminated string that starts at the head of `mem`, without the
terminator; `none` when the memory ends before a terminator. -/
def cstr_of : List Byte → Option (List Byte)
  | [] => none
  | b :: bs => if b = 0 then some [] else (cstr_of bs).map (List.cons b)

/-- The NUL-terminated string at buffer offset `off` (what `%s` prints). -/
def cstr (elf : List Byte) (off : Nat) : Option (List Byte) :=
  cstr_of (elf.drop off)

/-- Model of `strncmp(s, lit, n) == 0`, where `mem` is the memory from `s` to the end of
the buffer and `lit` holds the characters of the string literal (its terminator is
implicit). Bytes are compared one at a time, stopping at the first difference, at a
terminator, or after `n` bytes. -/
def strncmp_eq : List Byte → List Byte → Nat → Option Bool
  | _, _, 0 => some true
  | [], _, _ + 1 => none
  | c :: cs, lit, n + 1 =>
    if c ≠ lit.headD 0 then some false
    else if c = 0 then some true
    else strncmp_eq cs lit.tail n

/-- Model of `strcmp(s, lit) == 0`, with `mem` and `lit` as in `strncmp_eq`. -/
def strcmp_eq : List Byte → List Byte → Option Bool
  | [], _ => none
  | c :: cs, lit =>
    if c ≠ lit.headD 0 then some false
    else if c = 0 then some true
    else
      match lit with
      | [] => some true
      | _ :: ps => strcmp_eq cs ps

/-! ## Integer conversions -/

/-- Conversion of an unsigned 64-bit value to `int` (32 bits, two's complement). -/
def to_int32 (n : Nat) : Int :=
  if n % 2 ^ 32 < 2 ^ 31 then ((n % 2 ^ 32 : Nat) : Int) else ((n % 2 ^ 32 : Nat) : Int) - 2 ^ 32

/-- Conversion of an `int` to `size_t` (32 bits), as done at `malloc(sz)` and
`memcpy(.., sz)`. -/
def to_size_t (z : Int) : Nat :=
  (z % 2 ^ 32).toNat

/-! ## Struct fields -/

/-- Field `e_shoff` of `Elf64_Ehdr`: 8 bytes at offset 40. -/
def e_shoff (elf : List Byte) : Option Nat := read_le elf 40 8

/-- Field `e_shentsize` of `Elf64_Ehdr`: 2 bytes at offset 58. -/
def e_shentsize (elf : List Byte) : Option Nat := read_le elf 58 2

/-- Field `e_shnum` of `Elf64_Ehdr`: 2 bytes at offset 60. -/
def e_shnum (elf : List Byte) : Option Nat := read_le elf 60 2

/-- Field `e_shstrndx` of `Elf64_Ehdr`: 2 bytes at offset 62. -/
def e_shstrndx (elf : List Byte) : Option Nat := read_le elf 62 2

/-- Field `sh[i].sh_name`, with `sh` the offset of the section-header array:
`sizeof(Elf64_Shdr)` is 64 and `sh_name` is 4 bytes at offset 0 of the entry. -/
def sh_name (elf : List Byte) (sh i : Nat) : Option Nat := read_le elf (sh + 64 * i) 4

/-- Field `sh[i].sh_offset`: 8 bytes at offset 24 of the entry. -/
def sh_offset (elf : List Byte) (sh i : Nat) : Option Nat := read_le elf (sh + 64 * i + 24) 8

/-- Field `sh[i].sh_size`: 8 bytes at offset 32 of the entry. -/
def sh_size (elf : List Byte) (sh i : Nat) : Option Nat := read_le elf (sh + 64 * i + 32) 8

/-- Field `symbols[i].st_name`, with `symbols` the offset of the symbol array:
`sizeof(Elf64_Sym)` is 24 and `st_name` is 4 bytes at offset 0 of the entry. -/
def st_name (elf : List Byte) (symbols i : Nat) : Option Nat := read_le elf (symbols + 24 * i) 4

/-- Field `symbols[i].st_info`: 1 byte at offset 4 of the entry. -/
def st_info (elf : List Byte) (symbols i : Nat) : Option Nat :=
  read_le elf (symbols + 24 * i + 4) 1

/-- Field `symbols[i].st_value`: 8 bytes at offset 8 of the entry. -/
def st_value (elf : List Byte) (symbols i : Nat) : Option Nat :=
  read_le elf (symbols + 24 * i + 8) 8

/-- The macro `STT_FUNC`. -/
def STT_FUNC : Nat := 2

/-- The macro `ELF64_ST_TYPE(val)`, `(val) & 0xf`. -/
def ELF64_ST_TYPE (val : Nat) : Nat := val &&& 0xf

/-! ## String literals of the source -/

/-- The literal `".text"`. -/
def dot_text : List Byte := [0x2e, 0x74, 0x65, 0x78, 0x74]

/-- The literal `".rodata"`. -/
def dot_rodata : List Byte := [0x2e, 0x72, 0x6f, 0x64, 0x61, 0x74, 0x61]

/-- The literal `".data.ro"`. -/
def dot_data_ro : List Byte := [0x2e, 0x64, 0x61, 0x74, 0x61, 0x2e, 0x72, 0x6f]

/-- The literal `".symtab"`. -/
def dot_symtab : List Byte := [0x2e, 0x73, 0x79, 0x6d, 0x74, 0x61, 0x62]

/-- The literal `".strtab"`. -/
def dot_strtab : List Byte := [0x2e, 0x73, 0x74, 0x72, 0x74, 0x61, 0x62]

/-! ## `compile_and_get_text`, steps 3 to 5 -/

/-- One line of the section listing printed by step 4: index, name, offset and size. -/
structure SectionLine where
  index : Nat
  name : List Byte
  off : Nat
  size : Nat
deriving DecidableEq

/-- Step 4 of `compile_and_get_text`: the loop `for (i = 0; i < e_shnum; i++)` that
prints every section. The first argument counts the remaining iterations, the second
is `i`. -/
def print_sections (elf : List Byte) (sh strtab : Nat) : Nat → Nat → Option (List SectionLine)
  | 0, _ => some []
  | n + 1, i => do
    let nm ← sh_name elf sh i
    let name ← cstr elf (strtab + nm)
    let off ← sh_offset elf sh i
    let size ← sh_size elf sh i
    let rest ← print_sections elf sh strtab n (i + 1)
    pure (SectionLine.mk i name off size :: rest)

/-- What `compile_and_get_text` hands back: the returned pointer (`none` is `NULL`,
`some out` the freshly allocated copy) and the value of `*out_size` after the call. -/
structure TextResult where
  ret : Option (List Byte)
  out_size : Int
deriving DecidableEq

/-- Step 5 of `compile_and_get_text`: the loop that returns the first section whose
name starts with `".text"`. `out_size` is the value `*out_size` holds before the call.
The first `Nat` counts the remaining iterations, the second is `i`. -/
def extract_text (elf : List Byte) (sh strtab : Nat) (out_size : Int) :
    Nat → Nat → Option TextResult
  | 0, _ => some (TextResult.mk none out_size)
  | n + 1, i => do
    let nm ← sh_name elf sh i
    let hit ← strncmp_eq (elf.drop (strtab + nm)) dot_text 5
    if hit then
      let _ ← cstr elf (strtab + nm)
      let size ← sh_size elf sh i
      let sz := to_int32 size
      let off ← sh_offset elf sh i
      let out ← slice elf off (to_size_t sz)
      pure (TextResult.mk (some out) sz)
    else
      extract_text elf sh strtab out_size n (i + 1)

/-- The section listing that step 4 prints for the buffer `elf`. -/
def section_log (elf : List Byte) : Option (List SectionLine) := do
  let shoff ← e_shoff elf
  let shnum ← e_shnum elf
  let shstrndx ← e_shstrndx elf
  let strtab ← sh_offset elf shoff shstrndx
  print_sections elf shoff strtab shnum 0

/-- Steps 3 to 5 of `compile_and_get_text` on the bytes `elf` read from `out.o`
(steps 1 and 2, the compiler run and the file read, are the callers of this part). -/
def compile_and_get_text (elf : List Byte) (out_size : Int) : Option TextResult := do
  let shoff ← e_shoff elf
  let shnum ← e_shnum elf
  let shstrndx ← e_shstrndx elf
  let strtab ← sh_offset elf shoff shstrndx
  let _ ← print_sections elf shoff strtab shnum 0
  extract_text elf shoff strtab out_size shnum 0

/-! ## `extract_symbols` -/

/-- One `Function: %s at 0x%llx` line printed by `extract_symbols`. -/
structure FuncLine where
  name : List Byte
  value : Nat
deriving DecidableEq

/-- The loop of `extract_symbols` that locates `.symtab` and `.strtab`; `symtab` and
`strtab` are the section indices found so far (`none` is `NULL`). There is no `break`:
a later section with the same name replaces an earlier one. -/
def locate_tables (elf : List Byte) (sh shstrtab : Nat) :
    Nat → Nat → Option Nat → Option Nat → Option (Option Nat × Option Nat)
  | 0, _, symtab, strtab => some (symtab, strtab)
  | n + 1, i, symtab, strtab => do
    let nm ← sh_name elf sh i
    let is_symtab ← strcmp_eq (elf.drop (shstrtab + nm)) dot_symtab
    if is_symtab then
      locate_tables elf sh shstrtab n (i + 1) (some i) strtab
    else
      let is_strtab ← strcmp_eq (elf.drop (shstrtab + nm)) dot_strtab
      if is_strtab then
        locate_tables elf sh shstrtab n (i + 1) symtab (some i)
      else
        locate_tables elf sh shstrtab n (i + 1) symtab strtab

/-- The loop of `extract_symbols` over the symbol entries; the result lists the
functions in the order they are printed. -/
def report_symbols (elf : List Byte) (symbols strtab_data : Nat) :
    Nat → Nat → Option (List FuncLine)
  | 0, _ => some []
  | n + 1, i => do
    let nm ← st_name elf symbols i
    let info ← st_info elf symbols i
    if ELF64_ST_TYPE info = STT_FUNC then
      let name ← cstr elf (strtab_data + nm)
      let value ← st_value elf symbols i
      let rest ← report_symbols elf symbols strtab_data n (i + 1)
      pure (FuncLine.mk name value :: rest)
    else
      report_symbols elf symbols strtab_data n (i + 1)

/-- What a call of `extract_symbols` prints. -/
inductive SymbolsResult where
  /-- The file could not be opened. -/
  | open_failed
  /-- The message `.symtab or .strtab not found in ELF file`. -/
  | tables_not_found
  /-- The message `Found %d symbols in .symtab` and the function lines after it. -/
  | found (num_symbols : Int) (functions : List FuncLine)
deriving DecidableEq

/-- The function `extract_symbols`; `file` is the content of the file at `elf_path`, or
`none` when `fopen` fails. -/
def extract_symbols (file : Option (List Byte)) : Option SymbolsResult :=
  match file with
  | none => some SymbolsResult.open_failed
  | some elf => do
    let shoff ← e_shoff elf
    let shnum ← e_shnum elf
    let shstrndx ← e_shstrndx elf
    let shstrtab ← sh_offset elf shoff shstrndx
    let tables ← locate_tables elf shoff shstrtab shnum 0 none none
    match tables with
    | (some symtab, some strtab) =>
      let strtab_data ← sh_offset elf shoff strtab
      let symbols ← sh_offset elf shoff symtab
      let size ← sh_size elf shoff symtab
      let num_symbols := to_int32 (size / 24)
      let functions ← report_symbols elf symbols strtab_data num_symbols.toNat 0
      pure (SymbolsResult.found num_symbols functions)
    | _ => pure SymbolsResult.tables_not_found

/-! ## The read-only-data store -/

/-- The three file-scope variables `g_rodata_data`, `g_rodata_size`, `g_rodata_base`;
`g_rodata_data = none` is the `NULL` pointer. -/
structure Store where
  g_rodata_data : Option (List Byte)
  g_rodata_size : Int
  g_rodata_base : Nat
deriving DecidableEq

/-- The initializers of the three variables. -/
def Store.init : Store := Store.mk none 0 0x3000

/-- The function `get_rodata_data`: the returned pointer, `*out_size`, and the store
after the call. -/
def get_rodata_data (s : Store) : TextResult × Store :=
  match s.g_rodata_data with
  | none => (TextResult.mk none 0, s)
  | some data => (TextResult.mk (some data) s.g_rodata_size, s)

/-- The function `get_rodata_base`: the returned value and the store after the call. -/
def get_rodata_base (s : Store) : Nat × Store :=
  (s.g_rodata_base, s)

/-- The loop of `extract_rodata` that installs the first section whose name starts
with `".rodata"` or `".data.ro"`, then leaves the loop. -/
def find_rodata (elf : List Byte) (sh strtab : Nat) (s : Store) : Nat → Nat → Option Store
  | 0, _ => some s
  | n + 1, i => do
    let nm ← sh_name elf sh i
    let is_rodata ← strncmp_eq (elf.drop (strtab + nm)) dot_rodata 7
    let hit ← if is_rodata then some true else strncmp_eq (elf.drop (strtab + nm)) dot_data_ro 8
    if hit then
      let _ ← cstr elf (strtab + nm)
      let size ← sh_size elf sh i
      let sz := to_int32 size
      let off ← sh_offset elf sh i
      let data ← slice elf off (to_size_t sz)
      pure { s with g_rodata_size := sz, g_rodata_data := some data }
    else
      find_rodata elf sh strtab s n (i + 1)

/-- The clean-up at the head of `extract_rodata`. -/
def release_rodata (s : Store) : Store :=
  match s.g_rodata_data with
  | some _ => { s with g_rodata_data := none, g_rodata_size := 0 }
  | none => s

/-- The function `extract_rodata`; `file` is the content of the file at `obj_path`, or
`none` when `fopen` fails. -/
def extract_rodata (s : Store) (file : Option (List Byte)) : Option Store :=
  let s1 := release_rodata s
  match file with
  | none => some s1
  | some elf => do
    let shoff ← e_shoff elf
    let shnum ← e_shnum elf
    let shstrndx ← e_shstrndx elf
    let strtab ← sh_offset elf shoff shstrndx
    find_rodata elf shoff strtab s1 shnum 0

/-! ## Call sequences -/

/-- A call of one of the five exported functions, with the inputs it depends on. -/
inductive Call where
  | extract_rodata (file : Option (List Byte))
  | get_rodata_data
  | get_rodata_base
  | compile_and_get_text (elf : List Byte) (out_size : Int)
  | extract_symbols (file : Option (List Byte))

/-- The store after one call; `none` when the call has no defined result. -/
def step (s : Store) : Call → Option Store
  | Call.extract_rodata file => extract_rodata s file
  | Call.get_rodata_data => some (get_rodata_data s).2
  | Call.get_rodata_base => some (get_rodata_base s).2
  | Call.compile_and_get_text elf out_size => (compile_and_get_text elf out_size).map (fun _ => s)
  | Call.extract_symbols file => (extract_symbols file).map (fun _ => s)

/-- The store after a sequence of calls. -/
def run (s : Store) : List Call → Option Store
  | [] => some s
  | c :: cs => (step s c).bind (fun t => run t cs)

/-- The stores the program can be in: those some call sequence produces from the
initial values. -/
def Reachable (s : Store) : Prop := ∃ cs, run Store.init cs = some s

/-! ## Predicates on section names -/

/-- Whether a section name starts with `".text"`. -/
def is_text (name : List Byte) : Bool := decide (name.take 5 = dot_text)

/-- Whether a section name starts with `".rodata"` or with `".data.ro"`. -/
def is_rodata (name : List Byte) : Bool :=
  decide (name.take 7 = dot_rodata) || decide (name.take 8 = dot_data_ro)

/-! ## Resolved sections and well-formed containers -/

/-- The name the code resolves for section `i`: the string at
`sh[e_shstrndx].sh_offset + sh[i].sh_name`. -/
def section_name (elf : List Byte) (i : Nat) : Option (List Byte) := do
  let shoff ← e_shoff elf
  let shstrndx ← e_shstrndx elf
  let strtab ← sh_offset elf shoff shstrndx
  let nm ← sh_name elf shoff i
  cstr elf (strtab + nm)

/-- The value of `sh[i].sh_offset` for the section-header array at `e_shoff`. -/
def section_offset (elf : List Byte) (i : Nat) : Option Nat := do
  let shoff ← e_shoff elf
  sh_offset elf shoff i

/-- The value of `sh[i].sh_size` for the section-header array at `e_shoff`. -/
def section_size (elf : List Byte) (i : Nat) : Option Nat := do
  let shoff ← e_shoff elf
  sh_size elf shoff i

/-- A well-formed container buffer. The buffer is one the loader can produce (its length
is the value of the `long file_size`, 32 bits on the target); the header and the
section-header array lie inside the buffer; the section-name string table is one of the
sections and lies inside the buffer; every section name is a NUL-terminated string
inside the string table. -/
def WellFormed (elf : List Byte) : Prop :=
  elf.length < 2 ^ 31 ∧
  ∃ shoff shnum shstrndx strtab strsz,
    e_shoff elf = some shoff ∧ e_shnum elf = some shnum ∧ e_shstrndx elf = some shstrndx ∧
    shoff + 64 * shnum ≤ elf.length ∧ shstrndx < shnum ∧
    sh_offset elf shoff shstrndx = some strtab ∧ sh_size elf shoff shstrndx = some strsz ∧
    strtab + strsz ≤ elf.length ∧
    ∀ i, i < shnum → ∃ nm name, sh_name elf shoff i = some nm ∧
      cstr elf (strtab + nm) = some name ∧ nm + name.length < strsz

/-! ## Sample containers -/

/-- The `w` low bytes of `n`, little-endian. -/
def le_bytes (n : Nat) : Nat → List Byte
  | 0 => []
  | w + 1 => ⟨n % 256, Nat.mod_lt _ (by decide)⟩ :: le_bytes (n / 256) w

/-- A run of `n` zero bytes. -/
def zeros (n : Nat) : List Byte := List.replicate n 0

/-- The bytes of an ASCII string, without a terminator. -/
def ascii (s : String) : List Byte :=
  s.toList.map (fun c => ⟨c.toNat % 256, Nat.mod_lt _ (by decide)⟩)

/-- An `Elf64_Ehdr` (64 bytes) of a relocatable x86-64 object with the given `e_shoff`,
`e_shnum` and `e_shstrndx`. -/
def mk_ehdr (shoff shnum shstrndx : Nat) : List Byte :=
  [0x7f, 0x45, 0x4c, 0x46, 2, 1, 1, 0] ++ zeros 8 ++ le_bytes 1 2 ++ le_bytes 62 2
    ++ le_bytes 1 4 ++ le_bytes 0 8 ++ le_bytes 0 8 ++ le_bytes shoff 8 ++ le_bytes 0 4
    ++ le_bytes 64 2 ++ le_bytes 0 2 ++ le_bytes 0 2 ++ le_bytes 64 2 ++ le_bytes shnum 2
    ++ le_bytes shstrndx 2

/-- An `Elf64_Shdr` (64 bytes) with the given `sh_name`, `sh_offset` and `sh_size`. -/
def mk_shdr (name off size : Nat) : List Byte :=
  le_bytes name 4 ++ le_bytes 0 4 ++ le_bytes 0 8 ++ le_bytes 0 8 ++ le_bytes off 8
    ++ le_bytes size 8 ++ zeros 24

/-- An `Elf64_Sym` (24 bytes) with the given `st_name`, `st_info` and `st_value`. -/
def mk_sym (name info value : Nat) : List Byte :=
  le_bytes name 4 ++ le_bytes info 1 ++ le_bytes 0 1 ++ le_bytes 1 2 ++ le_bytes value 8
    ++ le_bytes 0 8

/-- Thirty-two bytes of code, `0x40 .. 0x5f`. -/
def text32 : List Byte :=
  (List.range 32).map (fun k => ⟨(k + 0x40) % 256, Nat.mod_lt _ (by decide)⟩)

/-- A container of 600 bytes with the sections `""`, `".text"` (32 bytes at 64),
`".rodata.str1.1"` (8 bytes at 96), `".symtab"` (48 bytes at 104: `main`, a global
function at 0, and `g_var`, a global object at 0x40), `".strtab"` (12 bytes at 152) and
`".shstrtab"` (48 bytes at 164); the section headers are at 216. -/
def sample : List Byte :=
  mk_ehdr 216 6 5 ++ text32 ++ (ascii "hello" ++ zeros 3)
    ++ (mk_sym 1 0x12 0 ++ mk_sym 6 0x11 0x40)
    ++ (zeros 1 ++ ascii "main" ++ zeros 1 ++ ascii "g_var" ++ zeros 1)
    ++ (zeros 1 ++ ascii ".text" ++ zeros 1 ++ ascii ".rodata.str1.1" ++ zeros 1
      ++ ascii ".symtab" ++ zeros 1 ++ ascii ".strtab" ++ zeros 1 ++ ascii ".shstrtab"
      ++ zeros 1)
    ++ zeros 4
    ++ mk_shdr 0 0 0 ++ mk_shdr 1 64 32 ++ mk_shdr 7 96 8 ++ mk_shdr 22 104 48
    ++ mk_shdr 30 152 12 ++ mk_shdr 38 164 48

/-- The section listing of `sample`. -/
def sample_table : List SectionLine :=
  [SectionLine.mk 0 [] 0 0, SectionLine.mk 1 (ascii ".text") 64 32,
    SectionLine.mk 2 (ascii ".rodata.str1.1") 96 8, SectionLine.mk 3 (ascii ".symtab") 104 48,
    SectionLine.mk 4 (ascii ".strtab") 152 12, SectionLine.mk 5 (ascii ".shstrtab") 164 48]

/-- A container of 360 bytes with the sections `""`, `".text"` (bytes `aa aa aa aa` at
64), `".text.startup"` (bytes `bb bb bb bb` at 68) and `".shstrtab"` (31 bytes at 72);
the section headers are at 104. -/
def two_text : List Byte :=
  mk_ehdr 104 4 3 ++ [0xaa, 0xaa, 0xaa, 0xaa] ++ [0xbb, 0xbb, 0xbb, 0xbb]
    ++ (zeros 1 ++ ascii ".text" ++ zeros 1 ++ ascii ".text.startup" ++ zeros 1
      ++ ascii ".shstrtab" ++ zeros 1)
    ++ zeros 1
    ++ mk_shdr 0 0 0 ++ mk_shdr 1 64 4 ++ mk_shdr 7 68 4 ++ mk_shdr 21 72 31

/-- A container of 280 bytes with the sections `""`, a section of 4 bytes at 64 whose
name is the first argument (five characters) and whose size field is the second, and
`".shstrtab"` (17 bytes at 68); the section headers are at 88. -/
def one_section (name : String) (size : Nat) : List Byte :=
  mk_ehdr 88 3 2 ++ [0x11, 0x22, 0x33, 0x44]
    ++ (zeros 1 ++ ascii name ++ zeros 1 ++ ascii ".shstrtab" ++ zeros 1)
    ++ zeros 3
    ++ mk_shdr 0 0 0 ++ mk_shdr 1 64 size ++ mk_shdr 7 68 17

/-- A container of 360 bytes with the sections `""`, `".text"` (4 bytes at 64),
`".data.ro1"` (the 8 bytes `01 .. 08` at 68) and `".shstrtab"` (27 bytes at 76); the
section headers are at 104. No section is called `".rodata"`. -/
def data_ro1 : List Byte :=
  mk_ehdr 104 4 3 ++ [0xc3, 0x90, 0x90, 0x90] ++ [1, 2, 3, 4, 5, 6, 7, 8]
    ++ (zeros 1 ++ ascii ".text" ++ zeros 1 ++ ascii ".data.ro1" ++ zeros 1
      ++ ascii ".shstrtab" ++ zeros 1)
    ++ zeros 1
    ++ mk_shdr 0 0 0 ++ mk_shdr 1 64 4 ++ mk_shdr 7 68 8 ++ mk_shdr 17 76 27

/-! ## Symbol decoding as the specification words it -/

/-- The fields of one `Elf64_Sym` that symbol decoding uses. -/
structure SymbolEntry where
  st_name : Nat
  st_info : Nat
  st_value : Nat
deriving DecidableEq

/-- Entry `i` of the symbol array at offset `symbols`. -/
def symbol_entry (elf : List Byte) (symbols i : Nat) : Option SymbolEntry := do
  let nm ← st_name elf symbols i
  let info ← st_info elf symbols i
  let value ← st_value elf symbols i
  pure (SymbolEntry.mk nm info value)

/-- The list of the values when every element is present, `none` otherwise. -/
def all_some {α : Type} : List (Option α) → Option (List α)
  | [] => some []
  | none :: _ => none
  | some a :: rest => (all_some rest).map (List.cons a)

/-- Whether the low four bits of the info byte say "function". -/
def is_function (s : SymbolEntry) : Bool := decide (s.st_info % 16 = 2)

/-- The name and address of a symbol: the NUL-terminated string at
`strtab_off + st_name`, and `st_value`. -/
def function_line (elf : List Byte) (strtab_off : Nat) (s : SymbolEntry) : Option FuncLine :=
  (cstr elf (strtab_off + s.st_name)).map (fun name => FuncLine.mk name s.st_value)

/-- Function-symbol decoding in the words of the specification: walk the
`symtab_size / 24` symbol entries in table order, keep exactly those whose low four info
bits equal 2, and map each to its name and address. -/
def decode_function_symbols (elf : List Byte) (symtab_off symtab_size strtab_off : Nat) :
    Option (List FuncLine) :=
  (all_some ((List.range (symtab_size / 24)).map (symbol_entry elf symtab_off))).bind
    (fun entries => all_some ((entries.filter is_function).map (function_line elf strtab_off)))

/-- The index of the last line of the listing whose name is `lit`, or `start` when there
is none. -/
def last_named (lit : List Byte) (tbl : List SectionLine) (start : Option Nat) : Option Nat :=
  tbl.foldl (fun acc e => if e.name = lit then some e.index else acc) start

/-! ## Further sample containers -/

/-- An `Elf64_Ehdr` (64 bytes) with the given identification bytes (16 of them),
`e_shoff`, `e_shentsize`, `e_shnum` and `e_shstrndx`. -/
def mk_ehdr_with (ident : List Byte) (shoff shentsize shnum shstrndx : Nat) : List Byte :=
  ident ++ le_bytes 1 2 ++ le_bytes 62 2 ++ le_bytes 1 4 ++ le_bytes 0 8 ++ le_bytes 0 8
    ++ le_bytes shoff 8 ++ le_bytes 0 4 ++ le_bytes 64 2 ++ le_bytes 0 2 ++ le_bytes 0 2
    ++ le_bytes shentsize 2 ++ le_bytes shnum 2 ++ le_bytes shstrndx 2

/-- The container `sample` with `e_shentsize` set to 65, so that
`e_shoff + e_shnum * e_shentsize = 216 + 6 * 65 = 606` exceeds its 600 bytes. -/
def sample_entsize65 : List Byte :=
  mk_ehdr_with ([0x7f, 0x45, 0x4c, 0x46, 2, 1, 1, 0] ++ zeros 8) 216 65 6 5 ++ sample.drop 64

/-- The container `data_ro1` with `e_shnum` set to 9 while the buffer ends after the
fourth section header: `e_shoff + e_shnum * e_shentsize = 104 + 9 * 64 = 680` exceeds its
360 bytes. -/
def data_ro1_shnum9 : List Byte :=
  mk_ehdr 104 9 3 ++ data_ro1.drop 64

/-- The container `sample` with all sixteen identification bytes set to zero. -/
def sample_no_magic : List Byte :=
  mk_ehdr_with (zeros 16) 216 64 6 5 ++ sample.drop 64

/-- A container of 416 bytes with the sections `""`, `".symtab"` (at 64, with the size
field given by the argument; the bytes at 64 are two symbols, the global functions
`first` at 0x10 and `second` at 0x20), `".strtab"` (14 bytes at 112) and `".shstrtab"`
(27 bytes at 126); the section headers are at 160. -/
def symtab_sized (size : Nat) : List Byte :=
  mk_ehdr 160 4 3 ++ (mk_sym 1 0x12 0x10 ++ mk_sym 7 0x12 0x20)
    ++ (zeros 1 ++ ascii "first" ++ zeros 1 ++ ascii "second" ++ zeros 1)
    ++ (zeros 1 ++ ascii ".symtab" ++ zeros 1 ++ ascii ".strtab" ++ zeros 1
      ++ ascii ".shstrtab" ++ zeros 1)
    ++ zeros 7
    ++ mk_shdr 0 0 0 ++ mk_shdr 1 64 size ++ mk_shdr 9 112 14 ++ mk_shdr 17 126 27

/-- A container of 480 bytes with the sections `""`, `".symtab"` (24 bytes at 64: the
global function `first` at 0x10), a second `".symtab"` (24 bytes at 88: the global
function `second` at 0x20), `".strtab"` (14 bytes at 112) and `".shstrtab"` (27 bytes at
126); the section headers are at 160. -/
def two_symtab : List Byte :=
  mk_ehdr 160 5 4 ++ (mk_sym 1 0x12 0x10 ++ mk_sym 7 0x12 0x20)
    ++ (zeros 1 ++ ascii "first" ++ zeros 1 ++ ascii "second" ++ zeros 1)
    ++ (zeros 1 ++ ascii ".symtab" ++ zeros 1 ++ ascii ".strtab" ++ zeros 1
      ++ ascii ".shstrtab" ++ zeros 1)
    ++ zeros 7
    ++ mk_shdr 0 0 0 ++ mk_shdr 1 64 24 ++ mk_shdr 1 88 24 ++ mk_shdr 9 112 14
    ++ mk_shdr 17 126 27

/-- A container of 280 bytes with the sections `""`, `".rodata"` (at 64, with the size
field given by the argument; the bytes at 64 are `11 22 33 44`) and `".shstrtab"`
(19 bytes at 68); the section headers are at 88. -/
def one_rodata (size : Nat) : List Byte :=
  mk_ehdr 88 3 2 ++ [0x11, 0x22, 0x33, 0x44]
    ++ (zeros 1 ++ ascii ".rodata" ++ zeros 1 ++ ascii ".shstrtab" ++ zeros 1)
    ++ zeros 1
    ++ mk_shdr 0 0 0 ++ mk_shdr 1 64 size ++ mk_shdr 9 68 19

/-! ## Loadable files -/

/-- Whether the file a call reads fits the loader: its length is the value of the
`long file_size`, which is 32 bits wide on the target. -/
def loadable : Call → Bool
  | Call.extract_rodata (some elf) => decide (elf.length < 2 ^ 31)
  | Call.compile_and_get_text elf _ => decide (elf.length < 2 ^ 31)
  | Call.extract_symbols (some elf) => decide (elf.length < 2 ^ 31)
  | _ => true

/-- The section listing of `symtab_sized size`. -/
def symtab_sized_table (size : Nat) : List SectionLine :=
  [SectionLine.mk 0 [] 0 0, SectionLine.mk 1 (ascii ".symtab") 64 size,
    SectionLine.mk 2 (ascii ".strtab") 112 14, SectionLine.mk 3 (ascii ".shstrtab") 126 27]

/-- The section listing of `two_symtab`. -/
def two_symtab_table : List SectionLine :=
  [SectionLine.mk 0 [] 0 0, SectionLine.mk 1 (ascii ".symtab") 64 24,
    SectionLine.mk 2 (ascii ".symtab") 88 24, SectionLine.mk 3 (ascii ".strtab") 112 14,
    SectionLine.mk 4 (ascii ".shstrtab") 126 27]

/-- The section listing of `data_ro1`. -/
def data_ro1_table : List SectionLine :=
  [SectionLine.mk 0 [] 0 0, SectionLine.mk 1 (ascii ".text") 64 4,
    SectionLine.mk 2 (ascii ".data.ro1") 68 8, SectionLine.mk 3 (ascii ".shstrtab") 76 27]

/-! ## Auxiliary lemmas -/


theorem cstr_of_ne_zero : ∀ (mem name : List Byte), cstr_of mem = some name → ∀ b ∈ name, b ≠ 0 := by
  intro mem
  induction mem with
  | nil => intro name h; simp [cstr_of] at h
  | cons c cs ih =>
    intro name h
    by_cases hc : c = 0
    · simp [cstr_of, hc] at h
      subst h; simp
    · simp only [cstr_of, hc, if_false, Option.map_eq_some'] at h
      obtain ⟨t, ht, rfl⟩ := h
      intro b hb
      rcases List.mem_cons.1 hb with rfl | hb
      · exact hc
      · exact ih t ht b hb

theorem cstr_of_append : ∀ (mem name : List Byte), cstr_of mem = some name →
    ∃ rest, mem = name ++ 0 :: rest := by
  intro mem
  induction mem with
  | nil => intro name h; simp [cstr_of] at h
  | cons c cs ih =>
    intro name h
    by_cases hc : c = 0
    · simp [cstr_of, hc] at h
      subst h; exact ⟨cs, by simp [hc]⟩
    · simp only [cstr_of, hc, if_false, Option.map_eq_some'] at h
      obtain ⟨t, ht, rfl⟩ := h
      obtain ⟨rest, hr⟩ := ih t ht
      exact ⟨rest, by simp [hr]⟩

theorem strncmp_eq_of_cstr : ∀ (n : Nat) (mem name lit : List Byte),
    cstr_of mem = some name → (∀ b ∈ lit, b ≠ 0) →
    strncmp_eq mem lit n = some (decide (name.take n = lit.take n)) := by
  intro n
  induction n with
  | zero => intro mem name lit _ _; simp [strncmp_eq]
  | succ n ih =>
    intro mem name lit h hl
    cases mem with
    | nil => simp [cstr_of] at h
    | cons c cs =>
      by_cases hc : c = 0
      · simp [cstr_of, hc] at h
        subst h
        cases lit with
        | nil => simp [strncmp_eq, hc]
        | cons p ps =>
          have hp : p ≠ 0 := hl p (List.mem_cons_self _ _)
          simp [strncmp_eq, hc, Ne.symm hp]
      · simp only [cstr_of, hc, if_false, Option.map_eq_some'] at h
        obtain ⟨t, ht, rfl⟩ := h
        cases lit with
        | nil => simp [strncmp_eq, hc]
        | cons p ps =>
          by_cases hcp : c = p
          · subst hcp
            have := ih cs t ps ht (fun b hb => hl b (List.mem_cons_of_mem _ hb))
            simp [strncmp_eq, hc, this]
          · simp [strncmp_eq, hcp]

theorem strcmp_eq_of_cstr : ∀ (mem name lit : List Byte),
    cstr_of mem = some name → (∀ b ∈ lit, b ≠ 0) →
    strcmp_eq mem lit = some (decide (name = lit)) := by
  intro mem
  induction mem with
  | nil => intro name lit h; simp [cstr_of] at h
  | cons c cs ih =>
    intro name lit h hl
    by_cases hc : c = 0
    · simp [cstr_of, hc] at h
      subst h
      cases lit with
      | nil => simp [strcmp_eq, hc]
      | cons p ps =>
        have hp : p ≠ 0 := hl p (List.mem_cons_self _ _)
        simp [strcmp_eq, hc, Ne.symm hp]
    · simp only [cstr_of, hc, if_false, Option.map_eq_some'] at h
      obtain ⟨t, ht, rfl⟩ := h
      cases lit with
      | nil => simp [strcmp_eq, hc]
      | cons p ps =>
        by_cases hcp : c = p
        · subst hcp
          have := ih t ps ht (fun b hb => hl b (List.mem_cons_of_mem _ hb))
          simp [strcmp_eq, hc, this]
        · simp [strcmp_eq, hcp]

theorem to_size_t_to_int32 (n : Nat) : to_size_t (to_int32 n) = n % 2 ^ 32 := by
  unfold to_size_t to_int32
  split <;> omega

theorem to_int32_of_lt (n : Nat) (h : n < 2 ^ 31) : to_int32 n = (n : Int) := by
  unfold to_int32
  have : n % 2 ^ 32 = n := Nat.mod_eq_of_lt (by omega)
  rw [this, if_pos h]

theorem print_sections_cons (elf : List Byte) (sh strtab n i : Nat) (tbl : List SectionLine)
    (h : print_sections elf sh strtab (n + 1) i = some tbl) :
    ∃ nm name off size rest, sh_name elf sh i = some nm ∧ cstr elf (strtab + nm) = some name ∧
      sh_offset elf sh i = some off ∧ sh_size elf sh i = some size ∧
      print_sections elf sh strtab n (i + 1) = some rest ∧
      tbl = SectionLine.mk i name off size :: rest := by
  simp only [print_sections, Option.bind_eq_bind, Option.bind_eq_some, Option.pure_def,
    Option.some.injEq] at h
  obtain ⟨nm, h1, name, h2, off, h3, size, h4, rest, h5, h6⟩ := h
  exact ⟨nm, name, off, size, rest, h1, h2, h3, h4, h5, h6.symm⟩

theorem extract_text_of_log (elf : List Byte) (sh strtab : Nat) (o : Int) :
    ∀ (n i : Nat) (tbl : List SectionLine), print_sections elf sh strtab n i = some tbl →
      extract_text elf sh strtab o n i =
        match tbl.find? (fun e => is_text e.name) with
        | none => some (TextResult.mk none o)
        | some e => (slice elf e.off (e.size % 2 ^ 32)).map
            (fun out => TextResult.mk (some out) (to_int32 e.size)) := by
  intro n
  induction n with
  | zero =>
    intro i tbl h
    simp [print_sections] at h
    subst h
    simp [extract_text]
  | succ n ih =>
    intro i tbl h
    obtain ⟨nm, name, off, size, rest, h1, h2, h3, h4, h5, rfl⟩ := print_sections_cons _ _ _ _ _ _ h
    have hcmp : strncmp_eq (elf.drop (strtab + nm)) dot_text 5
        = some (decide (name.take 5 = dot_text)) :=
      strncmp_eq_of_cstr 5 _ name dot_text h2 (by simp [dot_text])
    simp only [extract_text, h1, Option.bind_eq_bind, Option.some_bind, hcmp, h2, h3, h4,
      Option.pure_def, to_size_t_to_int32, List.find?, is_text]
    by_cases hit : name.take 5 = dot_text
    · simp only [hit, decide_True, if_true]
      cases slice elf off (size % 2 ^ 32) <;> rfl
    · simp only [hit, decide_False, Bool.false_eq_true, if_false]
      exact ih (i + 1) rest h5


theorem section_log_eq_some (elf : List Byte) (tbl : List SectionLine)
    (h : section_log elf = some tbl) :
    ∃ shoff shnum shstrndx strtab, e_shoff elf = some shoff ∧ e_shnum elf = some shnum ∧
      e_shstrndx elf = some shstrndx ∧ sh_offset elf shoff shstrndx = some strtab ∧
      print_sections elf shoff strtab shnum 0 = some tbl := by
  simp only [section_log, Option.bind_eq_bind, Option.bind_eq_some] at h
  obtain ⟨shoff, h1, shnum, h2, ndx, h3, strtab, h4, h5⟩ := h
  exact ⟨shoff, shnum, ndx, strtab, h1, h2, h3, h4, h5⟩

theorem compile_and_get_text_of_log (elf : List Byte) (o : Int) (tbl : List SectionLine)
    (h : section_log elf = some tbl) :
    compile_and_get_text elf o =
      match tbl.find? (fun e => is_text e.name) with
      | none => some (TextResult.mk none o)
      | some e => (slice elf e.off (e.size % 2 ^ 32)).map
          (fun out => TextResult.mk (some out) (to_int32 e.size)) := by
  obtain ⟨shoff, shnum, ndx, strtab, h1, h2, h3, h4, h5⟩ := section_log_eq_some elf tbl h
  simp only [compile_and_get_text, h1, h2, h3, h4, h5, Option.bind_eq_bind, Option.some_bind]
  exact extract_text_of_log elf shoff strtab o shnum 0 tbl h5

theorem find_rodata_of_log (elf : List Byte) (sh strtab : Nat) (s : Store) :
    ∀ (n i : Nat) (tbl : List SectionLine), print_sections elf sh strtab n i = some tbl →
      find_rodata elf sh strtab s n i =
        match tbl.find? (fun e => is_rodata e.name) with
        | none => some s
        | some e => (slice elf e.off (e.size % 2 ^ 32)).map
            (fun data => Store.mk (some data) (to_int32 e.size) s.g_rodata_base) := by
  intro n
  induction n with
  | zero =>
    intro i tbl h
    simp [print_sections] at h
    subst h
    simp [find_rodata]
  | succ n ih =>
    intro i tbl h
    obtain ⟨nm, name, off, size, rest, h1, h2, h3, h4, h5, rfl⟩ := print_sections_cons _ _ _ _ _ _ h
    have hc1 : strncmp_eq (elf.drop (strtab + nm)) dot_rodata 7
        = some (decide (name.take 7 = dot_rodata)) :=
      strncmp_eq_of_cstr 7 _ name dot_rodata h2 (by simp [dot_rodata])
    have hc2 : strncmp_eq (elf.drop (strtab + nm)) dot_data_ro 8
        = some (decide (name.take 8 = dot_data_ro)) :=
      strncmp_eq_of_cstr 8 _ name dot_data_ro h2 (by simp [dot_data_ro])
    simp only [find_rodata, h1, Option.bind_eq_bind, Option.some_bind, hc1, hc2, h2, h3, h4,
      Option.pure_def, to_size_t_to_int32, List.find?, is_rodata]
    by_cases hit1 : name.take 7 = dot_rodata
    · simp only [hit1, decide_True, if_true, Option.some_bind, Bool.true_or]
      cases slice elf off (size % 2 ^ 32) <;> rfl
    · by_cases hit2 : name.take 8 = dot_data_ro
      · simp only [hit1, hit2, decide_True, decide_False, Bool.false_eq_true, if_false, if_true,
          Option.some_bind, Bool.or_true]
        cases slice elf off (size % 2 ^ 32) <;> rfl
      · simp only [hit1, hit2, decide_False, Bool.false_eq_true, if_false, Option.some_bind,
          Bool.or_false]
        exact ih (i + 1) rest h5

theorem extract_rodata_of_log (elf : List Byte) (s : Store) (tbl : List SectionLine)
    (h : section_log elf = some tbl) :
    extract_rodata s (some elf) =
      match tbl.find? (fun e => is_rodata e.name) with
      | none => some (release_rodata s)
      | some e => (slice elf e.off (e.size % 2 ^ 32)).map
          (fun data => Store.mk (some data) (to_int32 e.size) s.g_rodata_base) := by
  obtain ⟨shoff, shnum, ndx, strtab, h1, h2, h3, h4, h5⟩ := section_log_eq_some elf tbl h
  have hb : (release_rodata s).g_rodata_base = s.g_rodata_base := by
    unfold release_rodata; cases s.g_rodata_data <;> rfl
  simp only [extract_rodata, h1, h2, h3, h4, Option.bind_eq_bind, Option.some_bind]
  rw [find_rodata_of_log elf shoff strtab (release_rodata s) shnum 0 tbl h5, hb]

theorem find_split {α : Type} (p : α → Bool) (pre post : List α) (e : α)
    (hpre : ∀ x ∈ pre, p x = false) (he : p e = true) :
    (pre ++ e :: post).find? p = some e := by
  induction pre with
  | nil => simp [List.find?, he]
  | cons a as ih =>
    have ha : p a = false := hpre a (List.mem_cons_self _ _)
    simp only [List.cons_append, List.find?, ha]
    exact ih (fun x hx => hpre x (List.mem_cons_of_mem _ hx))

theorem slice_of_le (elf : List Byte) (off n : Nat) (h : off + n ≤ elf.length) :
    slice elf off n = some ((elf.drop off).take n) := by
  simp [slice, h]


theorem print_sections_length (elf : List Byte) (sh strtab : Nat) :
    ∀ (n i : Nat) (tbl : List SectionLine), print_sections elf sh strtab n i = some tbl →
      tbl.length = n := by
  intro n
  induction n with
  | zero => intro i tbl h; simp [print_sections] at h; subst h; rfl
  | succ n ih =>
    intro i tbl h
    obtain ⟨nm, name, off, size, rest, _, _, _, _, h5, rfl⟩ := print_sections_cons _ _ _ _ _ _ h
    simp [ih (i + 1) rest h5]

theorem print_sections_get (elf : List Byte) (sh strtab : Nat) :
    ∀ (n i : Nat) (tbl : List SectionLine), print_sections elf sh strtab n i = some tbl →
      ∀ k e, tbl[k]? = some e →
        e.index = i + k ∧ ∃ nm, sh_name elf sh (i + k) = some nm ∧
          cstr elf (strtab + nm) = some e.name ∧ sh_offset elf sh (i + k) = some e.off ∧
          sh_size elf sh (i + k) = some e.size := by
  intro n
  induction n with
  | zero => intro i tbl h; simp [print_sections] at h; subst h; simp
  | succ n ih =>
    intro i tbl h k e hk
    obtain ⟨nm, name, off, size, rest, h1, h2, h3, h4, h5, rfl⟩ := print_sections_cons _ _ _ _ _ _ h
    cases k with
    | zero =>
      simp at hk
      subst hk
      exact ⟨rfl, nm, h1, h2, h3, h4⟩
    | succ k =>
      simp only [List.getElem?_cons_succ] at hk
      have := ih (i + 1) rest h5 k e hk
      have hik : i + 1 + k = i + (k + 1) := by omega
      rw [hik] at this
      exact this

theorem print_sections_defined (elf : List Byte) (sh strtab : Nat) :
    ∀ (n i : Nat),
      (∀ k, k < n → ∃ nm name off size, sh_name elf sh (i + k) = some nm ∧
        cstr elf (strtab + nm) = some name ∧ sh_offset elf sh (i + k) = some off ∧
        sh_size elf sh (i + k) = some size) →
      ∃ tbl, print_sections elf sh strtab n i = some tbl := by
  intro n
  induction n with
  | zero => intro i _; exact ⟨[], rfl⟩
  | succ n ih =>
    intro i h
    obtain ⟨nm, name, off, size, h1, h2, h3, h4⟩ := h 0 (Nat.succ_pos n)
    obtain ⟨rest, hr⟩ := ih (i + 1) (fun k hk => by
      have := h (k + 1) (Nat.succ_lt_succ hk)
      have hik : i + 1 + k = i + (k + 1) := by omega
      rw [hik]; exact this)
    simp only [Nat.add_zero] at h1 h3 h4
    exact ⟨SectionLine.mk i name off size :: rest, by
      simp [print_sections, h1, h2, h3, h4, hr]⟩

theorem read_le_defined (elf : List Byte) (off n : Nat) (h : off + n ≤ elf.length) :
    ∃ v, read_le elf off n = some v := by
  simp [read_le, slice, h]


theorem section_log_of_wf (elf : List Byte) (h : WellFormed elf) :
    ∃ tbl, section_log elf = some tbl := by
  obtain ⟨_, shoff, shnum, ndx, strtab, strsz, h1, h2, h3, h4, _, h6, _, _, h9⟩ := h
  have hp : ∃ tbl, print_sections elf shoff strtab shnum 0 = some tbl := by
    apply print_sections_defined
    intro k hk
    obtain ⟨nm, name, hn, hc, _⟩ := h9 k hk
    obtain ⟨off, ho⟩ := read_le_defined elf (shoff + 64 * k + 24) 8 (by omega)
    obtain ⟨size, hs⟩ := read_le_defined elf (shoff + 64 * k + 32) 8 (by omega)
    refine ⟨nm, name, off, size, ?_, hc, ?_, ?_⟩
    · simpa using hn
    · simpa [sh_offset] using ho
    · simpa [sh_size] using hs
  obtain ⟨tbl, ht⟩ := hp
  exact ⟨tbl, by simp [section_log, h1, h2, h3, h6, ht]⟩

theorem section_log_shnum (elf : List Byte) (tbl : List SectionLine)
    (h : section_log elf = some tbl) : e_shnum elf = some tbl.length := by
  obtain ⟨shoff, shnum, ndx, strtab, _, h2, _, _, h5⟩ := section_log_eq_some elf tbl h
  rw [print_sections_length elf shoff strtab shnum 0 tbl h5]; exact h2

theorem section_log_get (elf : List Byte) (tbl : List SectionLine)
    (h : section_log elf = some tbl) (i : Nat) (e : SectionLine) (he : tbl[i]? = some e) :
    e.index = i ∧ section_name elf i = some e.name ∧ section_offset elf i = some e.off ∧
      section_size elf i = some e.size := by
  obtain ⟨shoff, shnum, ndx, strtab, h1, h2, h3, h4, h5⟩ := section_log_eq_some elf tbl h
  obtain ⟨hx, nm, hn, hc, ho, hs⟩ := print_sections_get elf shoff strtab shnum 0 tbl h5 i e he
  simp only [Nat.zero_add] at hx hn ho hs
  refine ⟨hx, ?_, ?_, ?_⟩
  · simp [section_name, h1, h3, h4, hn, hc]
  · simp [section_offset, h1, ho]
  · simp [section_size, h1, hs]

theorem split_at_index {α : Type} (l : List α) (i : Nat) (e : α) (h : l[i]? = some e) :
    l = l.take i ++ e :: l.drop (i + 1) := by
  induction l generalizing i with
  | nil => simp at h
  | cons a as ih =>
    cases i with
    | zero => simp at h; simp [h]
    | succ i =>
      simp only [List.getElem?_cons_succ] at h
      simp only [List.take_succ_cons, List.drop_succ_cons, List.cons_append]
      rw [← ih i h]

theorem mem_take_get {α : Type} (l : List α) (i : Nat) (x : α) (h : x ∈ l.take i) :
    ∃ j, j < i ∧ l[j]? = some x := by
  obtain ⟨j, hj, hx⟩ := List.getElem_of_mem h
  have hlen : j < i ∧ j < l.length := by
    simp only [List.length_take] at hj; omega
  refine ⟨j, hlen.1, ?_⟩
  rw [List.getElem_take] at hx
  rw [List.getElem?_eq_getElem hlen.2, hx]

theorem text_of_split (elf : List Byte) (o : Int) (tbl pre post : List SectionLine)
    (e : SectionLine) (hlog : section_log elf = some tbl) (hsplit : tbl = pre ++ e :: post)
    (hpre : ∀ x ∈ pre, x.name.take 5 ≠ dot_text) (he : e.name.take 5 = dot_text)
    (hrange : e.off + e.size ≤ elf.length) (hlong : elf.length < 2 ^ 31) :
    compile_and_get_text elf o
      = some (TextResult.mk (some ((elf.drop e.off).take e.size)) (e.size : Int)) := by
  have hfind : tbl.find? (fun x => is_text x.name) = some e := by
    rw [hsplit]
    exact find_split _ pre post e (fun x hx => by simp [is_text, hpre x hx]) (by simp [is_text, he])
  have hsz : e.size % 2 ^ 32 = e.size := Nat.mod_eq_of_lt (by omega)
  rw [compile_and_get_text_of_log elf o tbl hlog, hfind]
  simp only [hsz, slice_of_le elf e.off e.size hrange, Option.map_some',
    to_int32_of_lt e.size (by omega)]

set_option maxRecDepth 100000 in
theorem sample_log : section_log sample = some sample_table := by decide

set_option maxRecDepth 100000 in
theorem sample_well_formed : WellFormed sample := by
  refine ⟨by decide, 216, 6, 5, 164, 48, by decide, by decide, by decide, by decide, by decide,
    by decide, by decide, by decide, ?_⟩
  intro i hi
  interval_cases i
  · exact ⟨0, [], by decide, by decide, by decide⟩
  · exact ⟨1, ascii ".text", by decide, by decide, by decide⟩
  · exact ⟨7, ascii ".rodata.str1.1", by decide, by decide, by decide⟩
  · exact ⟨22, ascii ".symtab", by decide, by decide, by decide⟩
  · exact ⟨30, ascii ".strtab", by decide, by decide, by decide⟩
  · exact ⟨38, ascii ".shstrtab", by decide, by decide, by decide⟩

theorem rodata_of_split (elf : List Byte) (s : Store) (tbl pre post : List SectionLine)
    (e : SectionLine) (hlog : section_log elf = some tbl) (hsplit : tbl = pre ++ e :: post)
    (hpre : ∀ x ∈ pre, x.name.take 7 ≠ dot_rodata ∧ x.name.take 8 ≠ dot_data_ro)
    (he : e.name.take 7 = dot_rodata ∨ e.name.take 8 = dot_data_ro)
    (hrange : e.off + e.size ≤ elf.length) (hlong : elf.length < 2 ^ 31) :
    extract_rodata s (some elf)
      = some (Store.mk (some ((elf.drop e.off).take e.size)) (e.size : Int) s.g_rodata_base) := by
  have hfind : tbl.find? (fun x => is_rodata x.name) = some e := by
    rw [hsplit]
    refine find_split _ pre post e (fun x hx => ?_) ?_
    · simp [is_rodata, (hpre x hx).1, (hpre x hx).2]
    · rcases he with h | h <;> simp [is_rodata, h]
  have hsz : e.size % 2 ^ 32 = e.size := Nat.mod_eq_of_lt (by omega)
  rw [extract_rodata_of_log elf s tbl hlog, hfind]
  simp only [hsz, slice_of_le elf e.off e.size hrange, Option.map_some',
    to_int32_of_lt e.size (by omega)]


theorem release_rodata_base (s : Store) : (release_rodata s).g_rodata_base = s.g_rodata_base := by
  unfold release_rodata; cases s.g_rodata_data <;> rfl

theorem release_rodata_data (s : Store) : (release_rodata s).g_rodata_data = none := by
  unfold release_rodata
  cases h : s.g_rodata_data <;> simp [h]

theorem release_rodata_size (s : Store) (h : s.g_rodata_data = none → s.g_rodata_size = 0) :
    (release_rodata s).g_rodata_size = 0 := by
  unfold release_rodata
  cases hd : s.g_rodata_data with
  | none => simpa using h hd
  | some d => rfl

theorem find_rodata_cases (elf : List Byte) (sh strtab : Nat) (s : Store) :
    ∀ (n i : Nat) (t : Store), find_rodata elf sh strtab s n i = some t →
      t = s ∨ ∃ data size, t = Store.mk (some data) size s.g_rodata_base := by
  intro n
  induction n with
  | zero => intro i t h; simp [find_rodata] at h; exact Or.inl h.symm
  | succ n ih =>
    intro i t h
    have body : ∀ (nm : Nat) (hit : Bool),
        (if hit = true then
          (cstr elf (strtab + nm)).bind fun _ =>
            (sh_size elf sh i).bind fun size =>
              (sh_offset elf sh i).bind fun off =>
                (slice elf off (to_size_t (to_int32 size))).bind fun data =>
                  pure (Store.mk (some data) (to_int32 size) s.g_rodata_base)
        else find_rodata elf sh strtab s n (i + 1)) = some t →
        t = s ∨ ∃ data size, t = Store.mk (some data) size s.g_rodata_base := by
      intro nm hit hb
      cases hit with
      | false => exact ih (i + 1) t (by simpa using hb)
      | true =>
        simp only [if_true, Option.bind_eq_some, Option.pure_def, Option.some.injEq] at hb
        obtain ⟨_, _, size, _, off, _, data, _, rfl⟩ := hb
        exact Or.inr ⟨data, to_int32 size, rfl⟩
    simp only [find_rodata, Option.bind_eq_bind, Option.bind_eq_some] at h
    obtain ⟨nm, _, r1, _, h3⟩ := h
    cases r1 with
    | true =>
      simp only [if_true, Option.some_bind] at h3
      exact body nm true h3
    | false =>
      simp only [Bool.false_eq_true, if_false, Option.bind_eq_some] at h3
      obtain ⟨hit, _, h4⟩ := h3
      exact body nm hit h4

/-- The facts every store the program can be in satisfies. -/
theorem step_inv (s t : Store) (c : Call) (h : step s c = some t)
    (hb : s.g_rodata_base = 0x3000) (hz : s.g_rodata_data = none → s.g_rodata_size = 0) :
    t.g_rodata_base = 0x3000 ∧ (t.g_rodata_data = none → t.g_rodata_size = 0) := by
  cases c with
  | get_rodata_data =>
    have : t = s := by
      simp only [step, Option.some.injEq] at h
      rw [← h]; unfold get_rodata_data; cases s.g_rodata_data <;> rfl
    subst this; exact ⟨hb, hz⟩
  | get_rodata_base =>
    have : t = s := by simpa [step, get_rodata_base] using h.symm
    subst this; exact ⟨hb, hz⟩
  | compile_and_get_text elf o =>
    simp only [step, Option.map_eq_some'] at h
    obtain ⟨_, _, rfl⟩ := h; exact ⟨hb, hz⟩
  | extract_symbols file =>
    simp only [step, Option.map_eq_some'] at h
    obtain ⟨_, _, rfl⟩ := h; exact ⟨hb, hz⟩
  | extract_rodata file =>
    have hrel : (release_rodata s).g_rodata_base = 0x3000 ∧
        ((release_rodata s).g_rodata_data = none → (release_rodata s).g_rodata_size = 0) :=
      ⟨by rw [release_rodata_base, hb], fun _ => release_rodata_size s hz⟩
    cases file with
    | none =>
      simp only [step, extract_rodata, Option.some.injEq] at h
      subst h; exact hrel
    | some elf =>
      simp only [step, extract_rodata, Option.bind_eq_bind, Option.bind_eq_some] at h
      obtain ⟨shoff, _, shnum, _, ndx, _, strtab, _, h5⟩ := h
      rcases find_rodata_cases elf shoff strtab _ shnum 0 t h5 with rfl | ⟨data, size, rfl⟩
      · exact hrel
      · exact ⟨hrel.1, fun hnone => by simp at hnone⟩

theorem run_inv : ∀ (cs : List Call) (s t : Store), run s cs = some t →
    s.g_rodata_base = 0x3000 → (s.g_rodata_data = none → s.g_rodata_size = 0) →
    t.g_rodata_base = 0x3000 ∧ (t.g_rodata_data = none → t.g_rodata_size = 0) := by
  intro cs
  induction cs with
  | nil => intro s t h hb hz; simp [run] at h; subst h; exact ⟨hb, hz⟩
  | cons c cs ih =>
    intro s t h hb hz
    simp only [run, Option.bind_eq_some] at h
    obtain ⟨u, hu, ht⟩ := h
    obtain ⟨hb1, hz1⟩ := step_inv s u c hu hb hz
    exact ih u t ht hb1 hz1

theorem reachable_inv (s : Store) (h : Reachable s) :
    s.g_rodata_base = 0x3000 ∧ (s.g_rodata_data = none → s.g_rodata_size = 0) := by
  obtain ⟨cs, hcs⟩ := h
  exact run_inv cs Store.init s hcs rfl (fun _ => rfl)

theorem release_rodata_reachable (s : Store) (h : Reachable s) :
    release_rodata s = Store.init := by
  obtain ⟨hb, hz⟩ := reachable_inv s h
  have h1 := release_rodata_data s
  have h2 := release_rodata_size s hz
  have h3 := release_rodata_base s
  rw [hb] at h3
  cases hr : release_rodata s with
  | mk d z b =>
    rw [hr] at h1 h2 h3
    simp only at h1 h2 h3
    subst h1 h2 h3
    rfl

theorem extract_rodata_reachable (s : Store) (file : Option (List Byte)) (h : Reachable s) :
    extract_rodata s file = extract_rodata Store.init file := by
  have h0 : release_rodata Store.init = Store.init := rfl
  cases file with
  | none => simp only [extract_rodata, release_rodata_reachable s h, h0]
  | some elf => simp only [extract_rodata, release_rodata_reachable s h, h0]


theorem last_named_cons (lit : List Byte) (e : SectionLine) (tbl : List SectionLine)
    (start : Option Nat) :
    last_named lit (e :: tbl) start
      = last_named lit tbl (if e.name = lit then some e.index else start) := rfl

theorem locate_tables_of_log (elf : List Byte) (sh strtab : Nat) :
    ∀ (n i : Nat) (tbl : List SectionLine) (a b : Option Nat),
      print_sections elf sh strtab n i = some tbl →
      locate_tables elf sh strtab n i a b
        = some (last_named dot_symtab tbl a, last_named dot_strtab tbl b) := by
  intro n
  induction n with
  | zero =>
    intro i tbl a b h
    simp [print_sections] at h
    subst h
    rfl
  | succ n ih =>
    intro i tbl a b h
    obtain ⟨nm, name, off, size, rest, h1, h2, h3, h4, h5, rfl⟩ := print_sections_cons _ _ _ _ _ _ h
    have hc1 : strcmp_eq (elf.drop (strtab + nm)) dot_symtab = some (decide (name = dot_symtab)) :=
      strcmp_eq_of_cstr _ name dot_symtab h2 (by simp [dot_symtab])
    have hc2 : strcmp_eq (elf.drop (strtab + nm)) dot_strtab = some (decide (name = dot_strtab)) :=
      strcmp_eq_of_cstr _ name dot_strtab h2 (by simp [dot_strtab])
    simp only [locate_tables, h1, Option.bind_eq_bind, Option.some_bind, hc1, hc2,
      last_named_cons]
    by_cases e1 : name = dot_symtab
    · have e3 : ¬ dot_symtab = dot_strtab := by decide
      subst e1
      simp only [e3, decide_True, if_true, if_false]
      exact ih (i + 1) rest _ _ h5
    · by_cases e2 : name = dot_strtab
      · have e3 : ¬ dot_strtab = dot_symtab := by decide
        subst e2
        simp only [e3, decide_True, decide_False, Bool.false_eq_true, if_true, if_false]
        exact ih (i + 1) rest _ _ h5
      · simp only [e1, e2, decide_False, Bool.false_eq_true, if_false]
        exact ih (i + 1) rest _ _ h5

theorem last_named_none (lit : List Byte) (post : List SectionLine) (start : Option Nat)
    (h : ∀ x ∈ post, x.name ≠ lit) : last_named lit post start = start := by
  induction post generalizing start with
  | nil => rfl
  | cons x xs ih =>
    rw [last_named_cons, if_neg (h x (List.mem_cons_self _ _))]
    exact ih start (fun y hy => h y (List.mem_cons_of_mem _ hy))

theorem last_named_split (lit : List Byte) (pre post : List SectionLine) (e : SectionLine)
    (start : Option Nat) (he : e.name = lit) (hpost : ∀ x ∈ post, x.name ≠ lit) :
    last_named lit (pre ++ e :: post) start = some e.index := by
  unfold last_named
  rw [List.foldl_append, List.foldl_cons, if_pos he]
  exact last_named_none lit post (some e.index) hpost

theorem all_some_cons_some {α : Type} (a : α) (rest : List (Option α)) :
    all_some (some a :: rest) = (all_some rest).map (List.cons a) := rfl

theorem st_type_eq (info : Nat) : (ELF64_ST_TYPE info = STT_FUNC) ↔ info % 16 = 2 := by
  unfold ELF64_ST_TYPE STT_FUNC
  have := Nat.and_pow_two_sub_one_eq_mod info 4
  simp only [Nat.reducePow, Nat.add_one_sub_one] at this
  rw [show (0xf : Nat) = 15 from rfl, this]

theorem report_symbols_spec (elf : List Byte) (symbols strtab_data : Nat) :
    ∀ (n i : Nat), symbols + 24 * (i + n) ≤ elf.length →
      report_symbols elf symbols strtab_data n i =
        (all_some ((List.range' i n).map (symbol_entry elf symbols))).bind
          (fun entries =>
            all_some ((entries.filter is_function).map (function_line elf strtab_data))) := by
  intro n
  induction n with
  | zero => intro i _; rfl
  | succ n ih =>
    intro i hb
    obtain ⟨nm, h1⟩ := read_le_defined elf (symbols + 24 * i) 4 (by omega)
    obtain ⟨info, h2⟩ := read_le_defined elf (symbols + 24 * i + 4) 1 (by omega)
    obtain ⟨value, h3⟩ := read_le_defined elf (symbols + 24 * i + 8) 8 (by omega)
    have hent : symbol_entry elf symbols i = some (SymbolEntry.mk nm info value) := by
      simp [symbol_entry, st_name, st_info, st_value, h1, h2, h3]
    have hrec := ih (i + 1) (by omega)
    rw [List.range'_succ, List.map_cons, hent, all_some_cons_some]
    simp only [report_symbols, st_name, st_info, st_value, h1, h2, h3, Option.bind_eq_bind,
      Option.some_bind, Option.pure_def, st_type_eq]
    rw [← st_name, ← st_info, ← st_value] at *
    rw [hrec]
    cases hE : all_some ((List.range' (i + 1) n).map (symbol_entry elf symbols)) with
    | none => by_cases hf : info % 16 = 2 <;> simp [hf]
    | some es =>
      by_cases hf : info % 16 = 2
      · simp only [hf, if_true, Option.map_some', Option.some_bind, List.filter, is_function,
          decide_True, List.map_cons, function_line]
        cases cstr elf (strtab_data + nm) with
        | none => rfl
        | some name =>
          simp only [Option.some_bind, Option.map_some', all_some_cons_some]
          cases all_some (List.map (function_line elf strtab_data) (List.filter is_function es)) <;> rfl
      · simp only [hf, if_false, Option.map_some', Option.some_bind, List.filter, is_function,
          decide_False]

theorem all_some_length {α : Type} : ∀ (l : List (Option α)) (r : List α),
    all_some l = some r → r.length = l.length := by
  intro l
  induction l with
  | nil => intro r h; simp [all_some] at h; subst h; rfl
  | cons x xs ih =>
    intro r h
    cases x with
    | none => simp [all_some] at h
    | some a =>
      simp only [all_some, Option.map_eq_some'] at h
      obtain ⟨t, ht, rfl⟩ := h
      simp [ih t ht]

theorem function_line_values (elf : List Byte) (strtab_off : Nat) :
    ∀ (l : List SymbolEntry) (funcs : List FuncLine),
      all_some (l.map (function_line elf strtab_off)) = some funcs →
      funcs.map FuncLine.value = l.map SymbolEntry.st_value ∧
        ∀ (k : Nat) (s : SymbolEntry), l[k]? = some s →
          ∃ f : FuncLine, funcs[k]? = some f ∧ cstr elf (strtab_off + s.st_name) = some f.name ∧
            f.value = s.st_value := by
  intro l
  induction l with
  | nil => intro funcs h; simp [all_some] at h; subst h; simp
  | cons x xs ih =>
    intro funcs h
    rw [List.map_cons] at h
    cases hx : function_line elf strtab_off x with
    | none => rw [hx] at h; simp [all_some] at h
    | some f =>
      rw [hx, all_some_cons_some, Option.map_eq_some'] at h
      obtain ⟨t, ht, rfl⟩ := h
      obtain ⟨ih1, ih2⟩ := ih t ht
      simp only [function_line, Option.map_eq_some'] at hx
      obtain ⟨name, hname, rfl⟩ := hx
      refine ⟨by simp [ih1], ?_⟩
      intro k s hk
      cases k with
      | zero =>
        simp only [List.getElem?_cons_zero, Option.some.injEq] at hk
        subst hk
        exact ⟨FuncLine.mk name x.st_value, by simp, hname, rfl⟩
      | succ k =>
        simp only [List.getElem?_cons_succ] at hk
        simpa using ih2 k s hk

theorem section_log_index (elf : List Byte) (tbl pre post : List SectionLine) (e : SectionLine)
    (hlog : section_log elf = some tbl) (hsplit : tbl = pre ++ e :: post) :
    ∃ shoff, e_shoff elf = some shoff ∧ sh_offset elf shoff e.index = some e.off ∧
      sh_size elf shoff e.index = some e.size := by
  obtain ⟨shoff, shnum, ndx, strtab, h1, _, _, _, h5⟩ := section_log_eq_some elf tbl hlog
  have hget : tbl[pre.length]? = some e := by
    rw [hsplit, List.getElem?_append_right (Nat.le_refl _)]; simp
  obtain ⟨hx, nm, _, _, ho, hs⟩ :=
    print_sections_get elf shoff strtab shnum 0 tbl h5 pre.length e hget
  rw [← hx] at ho hs
  exact ⟨shoff, h1, ho, hs⟩

theorem le_value_sum : ∀ (w : Nat) (elf : List Byte) (off : Nat), off + w ≤ elf.length →
    le_value ((elf.drop off).take w)
      = ((List.range w).map (fun k => (elf.getD (off + k) 0).val * 256 ^ k)).sum := by
  intro w
  induction w with
  | zero => intro elf off _; simp [le_value]
  | succ w ih =>
    intro elf off h
    have hlt : off < elf.length := by omega
    rw [List.drop_eq_getElem_cons hlt, List.take_succ_cons, le_value, ih elf (off + 1) (by omega),
      List.range_succ_eq_map, List.map_cons, List.sum_cons, List.map_map]
    have h0 : (elf.getD (off + 0) 0).val * 256 ^ 0 = (elf[off]).val := by
      simp [List.getD_eq_getElem?_getD, List.getElem?_eq_getElem hlt]
    rw [h0, ← List.sum_map_mul_left]
    congr 2
    apply List.map_congr_left
    intro k _
    simp only [Function.comp, Nat.succ_eq_add_one, pow_succ]
    have : off + 1 + k = off + (k + 1) := by omega
    rw [this]; ring

theorem read_le_little_endian (elf : List Byte) (off w v : Nat)
    (h : read_le elf off w = some v) :
    off + w ≤ elf.length ∧
      v = ((List.range w).map (fun k => (elf.getD (off + k) 0).val * 256 ^ k)).sum := by
  have hb : off + w ≤ elf.length := by
    by_contra hc
    simp [read_le, slice, hc] at h
  refine ⟨hb, ?_⟩
  simp only [read_le, slice, hb, if_true, Option.map_some', Option.some.injEq] at h
  rw [← h, le_value_sum w elf off hb]

theorem cstr_slice (elf : List Byte) (off : Nat) (name : List Byte)
    (h : cstr elf off = some name) :
    slice elf off (name.length + 1) = some (name ++ [0]) ∧ ∀ b ∈ name, b ≠ 0 := by
  refine ⟨?_, cstr_of_ne_zero _ name h⟩
  obtain ⟨rest, hr⟩ := cstr_of_append _ name h
  have hlen : (elf.drop off).length = name.length + (rest.length + 1) := by
    rw [hr]; simp
  rw [List.length_drop] at hlen
  have hb : off + (name.length + 1) ≤ elf.length := by omega
  rw [slice_of_le elf off _ hb, hr]
  have : name ++ 0 :: rest = (name ++ [0]) ++ rest := by simp
  rw [this, List.take_left' (by simp)]


theorem slice_of_lt (elf : List Byte) (off n : Nat) (h : elf.length < off + n) :
    slice elf off n = none := by
  simp [slice, Nat.not_le.2 h]

theorem text_of_split_narrow (elf : List Byte) (o : Int) (tbl pre post : List SectionLine)
    (e : SectionLine) (hlog : section_log elf = some tbl) (hsplit : tbl = pre ++ e :: post)
    (hpre : ∀ x ∈ pre, x.name.take 5 ≠ dot_text) (he : e.name.take 5 = dot_text) :
    compile_and_get_text elf o
      = (slice elf e.off (e.size % 2 ^ 32)).map
          (fun out => TextResult.mk (some out) (to_int32 e.size)) := by
  have hfind : tbl.find? (fun x => is_text x.name) = some e := by
    rw [hsplit]
    exact find_split _ pre post e (fun x hx => by simp [is_text, hpre x hx]) (by simp [is_text, he])
  rw [compile_and_get_text_of_log elf o tbl hlog, hfind]

theorem rodata_of_split_narrow (elf : List Byte) (s : Store) (tbl pre post : List SectionLine)
    (e : SectionLine) (hlog : section_log elf = some tbl) (hsplit : tbl = pre ++ e :: post)
    (hpre : ∀ x ∈ pre, x.name.take 7 ≠ dot_rodata ∧ x.name.take 8 ≠ dot_data_ro)
    (he : e.name.take 7 = dot_rodata ∨ e.name.take 8 = dot_data_ro) :
    extract_rodata s (some elf)
      = (slice elf e.off (e.size % 2 ^ 32)).map
          (fun data => Store.mk (some data) (to_int32 e.size) s.g_rodata_base) := by
  have hfind : tbl.find? (fun x => is_rodata x.name) = some e := by
    rw [hsplit]
    refine find_split _ pre post e (fun x hx => ?_) ?_
    · simp [is_rodata, (hpre x hx).1, (hpre x hx).2]
    · rcases he with h | h <;> simp [is_rodata, h]
  rw [extract_rodata_of_log elf s tbl hlog, hfind]

theorem text_no_match (elf : List Byte) (o : Int) (tbl : List SectionLine)
    (hlog : section_log elf = some tbl) (h : ∀ e ∈ tbl, e.name.take 5 ≠ dot_text) :
    compile_and_get_text elf o = some (TextResult.mk none o) := by
  have hf : tbl.find? (fun x => is_text x.name) = none := by
    rw [List.find?_eq_none]
    intro x hx
    simp [is_text, h x hx]
  rw [compile_and_get_text_of_log elf o tbl hlog, hf]

theorem rodata_no_match (elf : List Byte) (s : Store) (tbl : List SectionLine)
    (hlog : section_log elf = some tbl)
    (h : ∀ e ∈ tbl, e.name.take 7 ≠ dot_rodata ∧ e.name.take 8 ≠ dot_data_ro) :
    extract_rodata s (some elf) = some (release_rodata s) := by
  have hf : tbl.find? (fun x => is_rodata x.name) = none := by
    rw [List.find?_eq_none]
    intro x hx
    simp [is_rodata, (h x hx).1, (h x hx).2]
  rw [extract_rodata_of_log elf s tbl hlog, hf]

theorem last_named_some (lit : List Byte) : ∀ (tbl : List SectionLine) (start : Option Nat),
    (∃ e ∈ tbl, e.name = lit) → ∃ i, last_named lit tbl start = some i := by
  intro tbl
  induction tbl with
  | nil => intro start h; obtain ⟨e, he, _⟩ := h; simp at he
  | cons x xs ih =>
    intro start h
    rw [last_named_cons]
    by_cases hx : ∃ e ∈ xs, e.name = lit
    · exact ih _ hx
    · have hnone : ∀ y ∈ xs, y.name ≠ lit := fun y hy hn => hx ⟨y, hy, hn⟩
      rw [last_named_none lit xs _ hnone]
      obtain ⟨e, he, hn⟩ := h
      rcases List.mem_cons.1 he with rfl | he
      · exact ⟨e.index, by rw [if_pos hn]⟩
      · exact absurd hn (hnone e he)

theorem extract_symbols_of_log (elf : List Byte) (tbl : List SectionLine)
    (hlog : section_log elf = some tbl) :
    extract_symbols (some elf) =
      match last_named dot_symtab tbl none, last_named dot_strtab tbl none with
      | some symtab, some strtab =>
        (e_shoff elf).bind fun shoff =>
          (sh_offset elf shoff strtab).bind fun strtab_data =>
            (sh_offset elf shoff symtab).bind fun symbols =>
              (sh_size elf shoff symtab).bind fun size =>
                (report_symbols elf symbols strtab_data (to_int32 (size / 24)).toNat 0).map
                  (SymbolsResult.found (to_int32 (size / 24)))
      | _, _ => some SymbolsResult.tables_not_found := by
  obtain ⟨shoff, shnum, ndx, shstrtab, h1, h2, h3, h4, h5⟩ := section_log_eq_some elf tbl hlog
  have hloc := locate_tables_of_log elf shoff shstrtab shnum 0 tbl none none h5
  simp only [extract_symbols, h1, h2, h3, h4, hloc, Option.bind_eq_bind, Option.some_bind]
  cases last_named dot_symtab tbl none with
  | none => rfl
  | some a =>
    cases last_named dot_strtab tbl none with
    | none => rfl
    | some b =>
      simp only [Option.pure_def]
      cases sh_offset elf shoff b with
      | none => rfl
      | some x =>
        cases sh_offset elf shoff a with
        | none => rfl
        | some y =>
          cases sh_size elf shoff a with
          | none => rfl
          | some z =>
            simp only [Option.some_bind]
            cases report_symbols elf y x (to_int32 (z / 24)).toNat 0 <;> rfl

theorem extract_symbols_missing (elf : List Byte) (tbl : List SectionLine)
    (hlog : section_log elf = some tbl)
    (h : (∀ e ∈ tbl, e.name ≠ dot_symtab) ∨ (∀ e ∈ tbl, e.name ≠ dot_strtab)) :
    extract_symbols (some elf) = some SymbolsResult.tables_not_found := by
  rw [extract_symbols_of_log elf tbl hlog]
  rcases h with h | h
  · rw [last_named_none dot_symtab tbl none h]
  · rw [last_named_none dot_strtab tbl none h]
    cases last_named dot_symtab tbl none <;> rfl

theorem extract_symbols_of_tables (elf : List Byte)
    (tbl pre1 post1 pre2 post2 : List SectionLine) (symtab strtab : SectionLine)
    (hlog : section_log elf = some tbl)
    (hsym : tbl = pre1 ++ symtab :: post1) (hsymname : symtab.name = dot_symtab)
    (hsymlast : ∀ x ∈ post1, x.name ≠ dot_symtab)
    (hstr : tbl = pre2 ++ strtab :: post2) (hstrname : strtab.name = dot_strtab)
    (hstrlast : ∀ x ∈ post2, x.name ≠ dot_strtab) :
    extract_symbols (some elf)
      = (report_symbols elf symtab.off strtab.off (to_int32 (symtab.size / 24)).toNat 0).map
          (SymbolsResult.found (to_int32 (symtab.size / 24))) := by
  obtain ⟨shoff1, g1, symo, syms⟩ := section_log_index elf tbl pre1 post1 symtab hlog hsym
  obtain ⟨shoff2, g2, stro, _⟩ := section_log_index elf tbl pre2 post2 strtab hlog hstr
  have q : shoff2 = shoff1 := Option.some.inj (g2.symm.trans g1)
  rw [q] at stro
  have l1 : last_named dot_symtab tbl none = some symtab.index := by
    rw [hsym]; exact last_named_split _ pre1 post1 symtab none hsymname hsymlast
  have l2 : last_named dot_strtab tbl none = some strtab.index := by
    rw [hstr]; exact last_named_split _ pre2 post2 strtab none hstrname hstrlast
  rw [extract_symbols_of_log elf tbl hlog, l1, l2]
  simp only [g1, symo, syms, stro, Option.some_bind]

theorem extract_symbols_decoded (elf : List Byte)
    (tbl pre1 post1 pre2 post2 : List SectionLine) (symtab strtab : SectionLine)
    (funcs : List FuncLine) (hlog : section_log elf = some tbl)
    (hsym : tbl = pre1 ++ symtab :: post1) (hsymname : symtab.name = dot_symtab)
    (hsymlast : ∀ x ∈ post1, x.name ≠ dot_symtab)
    (hstr : tbl = pre2 ++ strtab :: post2) (hstrname : strtab.name = dot_strtab)
    (hstrlast : ∀ x ∈ post2, x.name ≠ dot_strtab)
    (hrange : symtab.off + symtab.size ≤ elf.length) (hlong : elf.length < 2 ^ 31)
    (hdec : decode_function_symbols elf symtab.off symtab.size strtab.off = some funcs) :
    extract_symbols (some elf)
      = some (SymbolsResult.found ((symtab.size / 24 : Nat) : Int) funcs) := by
  have hnum : to_int32 (symtab.size / 24) = ((symtab.size / 24 : Nat) : Int) :=
    to_int32_of_lt _ (by omega)
  have hrep := report_symbols_spec elf symtab.off strtab.off (symtab.size / 24) 0 (by omega)
  rw [← List.range_eq_range'] at hrep
  unfold decode_function_symbols at hdec
  rw [← hrep] at hdec
  rw [extract_symbols_of_tables elf tbl pre1 post1 pre2 post2 symtab strtab hlog hsym hsymname
    hsymlast hstr hstrname hstrlast, hnum, Int.toNat_ofNat, hdec]
  rfl


theorem slice_length (elf : List Byte) (off n : Nat) (d : List Byte)
    (h : slice elf off n = some d) : d.length = n ∧ off + n ≤ elf.length := by
  have hb : off + n ≤ elf.length := by
    by_contra hc
    simp [slice, hc] at h
  rw [slice_of_le elf off n hb] at h
  refine ⟨?_, hb⟩
  rw [← Option.some.inj h, List.length_take, List.length_drop]
  omega

theorem to_int32_mod (n : Nat) (h : n % 2 ^ 32 < 2 ^ 31) :
    to_int32 n = ((n % 2 ^ 32 : Nat) : Int) := by
  unfold to_int32
  rw [if_pos h]

theorem find_rodata_payload (elf : List Byte) (sh strtab : Nat) (s : Store) :
    ∀ (n i : Nat) (t : Store), find_rodata elf sh strtab s n i = some t →
      t = s ∨ ∃ data off size, slice elf off (size % 2 ^ 32) = some data ∧
        t = Store.mk (some data) (to_int32 size) s.g_rodata_base := by
  intro n
  induction n with
  | zero => intro i t h; simp [find_rodata] at h; exact Or.inl h.symm
  | succ n ih =>
    intro i t h
    have body : ∀ (nm : Nat) (hit : Bool),
        (if hit = true then
          (cstr elf (strtab + nm)).bind fun _ =>
            (sh_size elf sh i).bind fun size =>
              (sh_offset elf sh i).bind fun off =>
                (slice elf off (to_size_t (to_int32 size))).bind fun data =>
                  pure (Store.mk (some data) (to_int32 size) s.g_rodata_base)
        else find_rodata elf sh strtab s n (i + 1)) = some t →
        t = s ∨ ∃ data off size, slice elf off (size % 2 ^ 32) = some data ∧
          t = Store.mk (some data) (to_int32 size) s.g_rodata_base := by
      intro nm hit hb
      cases hit with
      | false => exact ih (i + 1) t (by simpa using hb)
      | true =>
        simp only [if_true, Option.bind_eq_some, Option.pure_def, Option.some.injEq] at hb
        obtain ⟨_, _, size, _, off, _, data, hd, rfl⟩ := hb
        rw [to_size_t_to_int32] at hd
        exact Or.inr ⟨data, off, size, hd, rfl⟩
    simp only [find_rodata, Option.bind_eq_bind, Option.bind_eq_some] at h
    obtain ⟨nm, _, r1, _, h3⟩ := h
    cases r1 with
    | true =>
      simp only [if_true, Option.some_bind] at h3
      exact body nm true h3
    | false =>
      simp only [Bool.false_eq_true, if_false, Option.bind_eq_some] at h3
      obtain ⟨hit, _, h4⟩ := h3
      exact body nm hit h4

theorem step_size_inv (s t : Store) (c : Call) (h : step s c = some t) (hc : loadable c = true)
    (hz : s.g_rodata_data = none → s.g_rodata_size = 0)
    (hl : ∀ d, s.g_rodata_data = some d → s.g_rodata_size = (d.length : Int)) :
    (t.g_rodata_data = none → t.g_rodata_size = 0) ∧
      ∀ d, t.g_rodata_data = some d → t.g_rodata_size = (d.length : Int) := by
  cases c with
  | get_rodata_data =>
    have : t = s := by
      simp only [step, Option.some.injEq] at h
      rw [← h]; unfold get_rodata_data; cases s.g_rodata_data <;> rfl
    subst this; exact ⟨hz, hl⟩
  | get_rodata_base =>
    have : t = s := by simpa [step, get_rodata_base] using h.symm
    subst this; exact ⟨hz, hl⟩
  | compile_and_get_text elf o =>
    simp only [step, Option.map_eq_some'] at h
    obtain ⟨_, _, rfl⟩ := h; exact ⟨hz, hl⟩
  | extract_symbols file =>
    simp only [step, Option.map_eq_some'] at h
    obtain ⟨_, _, rfl⟩ := h; exact ⟨hz, hl⟩
  | extract_rodata file =>
    have hrel : ((release_rodata s).g_rodata_data = none → (release_rodata s).g_rodata_size = 0) ∧
        ∀ d, (release_rodata s).g_rodata_data = some d →
          (release_rodata s).g_rodata_size = (d.length : Int) :=
      ⟨fun _ => release_rodata_size s hz, fun d hd => by
        rw [release_rodata_data] at hd; simp at hd⟩
    cases file with
    | none =>
      simp only [step, extract_rodata, Option.some.injEq] at h
      subst h; exact hrel
    | some elf =>
      have hlen : elf.length < 2 ^ 31 := of_decide_eq_true hc
      simp only [step, extract_rodata, Option.bind_eq_bind, Option.bind_eq_some] at h
      obtain ⟨shoff, _, shnum, _, ndx, _, strtab, _, h5⟩ := h
      rcases find_rodata_payload elf shoff strtab _ shnum 0 t h5 with
        rfl | ⟨data, off, size, hd, rfl⟩
      · exact hrel
      · obtain ⟨e1, e2⟩ := slice_length elf off _ data hd
        refine ⟨fun hnone => by simp at hnone, fun d hdd => ?_⟩
        simp only [Option.some.injEq] at hdd
        subst hdd
        show to_int32 size = (data.length : Int)
        rw [to_int32_mod size (by omega), e1]

theorem run_size_inv : ∀ (cs : List Call) (s t : Store), run s cs = some t →
    (∀ c ∈ cs, loadable c = true) →
    (s.g_rodata_data = none → s.g_rodata_size = 0) →
    (∀ d, s.g_rodata_data = some d → s.g_rodata_size = (d.length : Int)) →
    (t.g_rodata_data = none → t.g_rodata_size = 0) ∧
      ∀ d, t.g_rodata_data = some d → t.g_rodata_size = (d.length : Int) := by
  intro cs
  induction cs with
  | nil => intro s t h _ hz hl; simp [run] at h; subst h; exact ⟨hz, hl⟩
  | cons c cs ih =>
    intro s t h hc hz hl
    simp only [run, Option.bind_eq_some] at h
    obtain ⟨u, hu, ht⟩ := h
    obtain ⟨hz1, hl1⟩ := step_size_inv s u c hu (hc c (List.mem_cons_self _ _)) hz hl
    exact ih u t ht (fun x hx => hc x (List.mem_cons_of_mem _ hx)) hz1 hl1


theorem find_rodata_of_partial_log (elf : List Byte) (sh strtab : Nat) (s : Store)
    (e : SectionLine) :
    ∀ (m n i : Nat) (tbl : List SectionLine), print_sections elf sh strtab m i = some tbl →
      tbl.find? (fun x => is_rodata x.name) = some e → m ≤ n →
      find_rodata elf sh strtab s n i =
        (slice elf e.off (e.size % 2 ^ 32)).map
          (fun data => Store.mk (some data) (to_int32 e.size) s.g_rodata_base) := by
  intro m
  induction m with
  | zero =>
    intro n i tbl h hf _
    simp [print_sections] at h
    subst h
    simp at hf
  | succ m ih =>
    intro n i tbl h hf hmn
    obtain ⟨nm, name, off, size, rest, h1, h2, h3, h4, h5, rfl⟩ := print_sections_cons _ _ _ _ _ _ h
    obtain ⟨k, rfl⟩ : ∃ k, n = k + 1 := ⟨n - 1, by omega⟩
    have hc1 : strncmp_eq (elf.drop (strtab + nm)) dot_rodata 7
        = some (decide (name.take 7 = dot_rodata)) :=
      strncmp_eq_of_cstr 7 _ name dot_rodata h2 (by simp [dot_rodata])
    have hc2 : strncmp_eq (elf.drop (strtab + nm)) dot_data_ro 8
        = some (decide (name.take 8 = dot_data_ro)) :=
      strncmp_eq_of_cstr 8 _ name dot_data_ro h2 (by simp [dot_data_ro])
    simp only [find_rodata, h1, Option.bind_eq_bind, Option.some_bind, hc1, hc2, h2, h3, h4,
      Option.pure_def, to_size_t_to_int32]
    simp only [List.find?, is_rodata] at hf
    by_cases hit1 : name.take 7 = dot_rodata
    · simp only [hit1, decide_True, Bool.true_or, Option.some.injEq] at hf
      subst hf
      simp only [hit1, decide_True, if_true, Option.some_bind]
      cases slice elf off (size % 2 ^ 32) <;> rfl
    · by_cases hit2 : name.take 8 = dot_data_ro
      · simp only [hit1, hit2, decide_True, decide_False, Bool.or_true, Option.some.injEq] at hf
        subst hf
        simp only [hit1, hit2, decide_True, decide_False, Bool.false_eq_true, if_false, if_true,
          Option.some_bind]
        cases slice elf off (size % 2 ^ 32) <;> rfl
      · simp only [hit1, hit2, decide_False, Bool.or_false] at hf
        simp only [hit1, hit2, decide_False, Bool.false_eq_true, if_false, Option.some_bind]
        exact ih k (i + 1) rest h5 hf (by omega)

theorem rodata_of_partial_split (elf : List Byte) (s : Store) (pre : List SectionLine)
    (e : SectionLine) (shoff shnum shstrndx strtab : Nat)
    (h1 : e_shoff elf = some shoff) (h2 : e_shnum elf = some shnum)
    (h3 : e_shstrndx elf = some shstrndx) (h4 : sh_offset elf shoff shstrndx = some strtab)
    (hlog : print_sections elf shoff strtab (pre.length + 1) 0 = some (pre ++ [e]))
    (hlt : pre.length < shnum)
    (hpre : ∀ x ∈ pre, x.name.take 7 ≠ dot_rodata ∧ x.name.take 8 ≠ dot_data_ro)
    (he : e.name.take 7 = dot_rodata ∨ e.name.take 8 = dot_data_ro) :
    extract_rodata s (some elf)
      = (slice elf e.off (e.size % 2 ^ 32)).map
          (fun data => Store.mk (some data) (to_int32 e.size) s.g_rodata_base) := by
  have hfind : (pre ++ [e]).find? (fun x => is_rodata x.name) = some e := by
    refine find_split _ pre [] e (fun x hx => ?_) ?_
    · simp [is_rodata, (hpre x hx).1, (hpre x hx).2]
    · rcases he with h | h <;> simp [is_rodata, h]
  simp only [extract_rodata, h1, h2, h3, h4, Option.bind_eq_bind, Option.some_bind]
  rw [find_rodata_of_partial_log elf shoff strtab (release_rodata s) e (pre.length + 1) shnum 0
    (pre ++ [e]) hlog hfind (by omega), release_rodata_base]

theorem to_int32_eq_iff (n : Nat) : to_int32 n = (n : Int) ↔ n < 2 ^ 31 := by
  constructor
  · intro h
    unfold to_int32 at h
    have hm := Nat.mod_le n (2 ^ 32)
    have hl := Nat.mod_lt n (show 0 < 2 ^ 32 by decide)
    split at h <;> omega
  · exact to_int32_of_lt n

theorem all_some_get {α : Type} : ∀ (l : List (Option α)) (r : List α),
    all_some l = some r → ∀ (i : Nat) (a : α), r[i]? = some a → l[i]? = some (some a) := by
  intro l
  induction l with
  | nil => intro r h i a hi; simp [all_some] at h; subst h; simp at hi
  | cons x xs ih =>
    intro r h i a hi
    cases x with
    | none => simp [all_some] at h
    | some b =>
      simp only [all_some, Option.map_eq_some'] at h
      obtain ⟨t, ht, rfl⟩ := h
      cases i with
      | zero =>
        simp only [List.getElem?_cons_zero, Option.some.injEq] at hi
        subst hi
        simp
      | succ i =>
        simp only [List.getElem?_cons_succ] at hi ⊢
        exact ih t ht i a hi

theorem symbol_entries_fields (elf : List Byte) (symbols n : Nat) (entries : List SymbolEntry)
    (h : all_some ((List.range n).map (symbol_entry elf symbols)) = some entries) :
    ∀ (i : Nat) (s : SymbolEntry), entries[i]? = some s →
      read_le elf (symbols + 24 * i) 4 = some s.st_name ∧
      read_le elf (symbols + 24 * i + 4) 1 = some s.st_info ∧
      read_le elf (symbols + 24 * i + 8) 8 = some s.st_value := by
  intro i s hi
  have hl := all_some_get _ entries h i s hi
  rw [List.getElem?_map] at hl
  have hlt : i < n := by
    by_contra hc
    rw [List.getElem?_eq_none (by simpa using Nat.le_of_not_lt hc)] at hl
    simp at hl
  rw [List.getElem?_range hlt, Option.map_some', Option.some.injEq] at hl
  simp only [symbol_entry, Option.bind_eq_bind, Option.bind_eq_some, Option.pure_def,
    Option.some.injEq] at hl
  obtain ⟨nm, h1, info, h2, value, h3, rfl⟩ := hl
  exact ⟨h1, h2, h3⟩

/-! ## Text extraction -/

/-- C1. For a well-formed container in which section `i` is the first whose name starts
with `".text"` and whose range `[sh_offset, sh_offset + sh_size)` lies inside the
buffer, steps 3 to 5 of `compile_and_get_text` return a payload equal, byte for byte, to
that range of the buffer, and set `*out_size` to `sh_size`. -/
theorem text_payload_is_section_bytes (elf : List Byte) (o : Int) (n i off size : Nat)
    (name : List Byte) (hwf : WellFormed elf) (hn : e_shnum elf = some n) (hi : i < n)
    (hname : section_name elf i = some name) (htext : name.take 5 = dot_text)
    (hfirst : ∀ j nm, j < i → section_name elf j = some nm → nm.take 5 ≠ dot_text)
    (hoff : section_offset elf i = some off) (hsize : section_size elf i = some size)
    (hrange : off + size ≤ elf.length) :
    ∃ out, compile_and_get_text elf o = some (TextResult.mk (some out) (size : Int)) ∧
      out.length = size ∧ ∀ k, k < size → out[k]? = elf[off + k]? := by
  obtain ⟨tbl, hlog⟩ := section_log_of_wf elf hwf
  have hlen : tbl.length = n := by
    have := section_log_shnum elf tbl hlog
    rw [hn] at this
    exact (Option.some.inj this).symm
  have hi2 : i < tbl.length := hlen ▸ hi
  have hget : tbl[i]? = some tbl[i] := List.getElem?_eq_getElem hi2
  obtain ⟨_, h2, h3, h4⟩ := section_log_get elf tbl hlog i tbl[i] hget
  have en : tbl[i].name = name := Option.some.inj (h2.symm.trans hname)
  have eo : tbl[i].off = off := Option.some.inj (h3.symm.trans hoff)
  have es : tbl[i].size = size := Option.some.inj (h4.symm.trans hsize)
  have hpre : ∀ x ∈ tbl.take i, x.name.take 5 ≠ dot_text := by
    intro x hx
    obtain ⟨j, hj, hxj⟩ := mem_take_get tbl i x hx
    exact hfirst j x.name hj (section_log_get elf tbl hlog j x hxj).2.1
  have hmain := text_of_split elf o tbl (tbl.take i) (tbl.drop (i + 1)) tbl[i] hlog
    (split_at_index tbl i tbl[i] hget) hpre (en ▸ htext) (by rw [eo, es]; exact hrange) hwf.1
  rw [eo, es] at hmain
  refine ⟨(elf.drop off).take size, hmain, ?_, ?_⟩
  · simp only [List.length_take, List.length_drop]; omega
  · intro k hk
    rw [List.getElem?_take_of_lt hk, List.getElem?_drop]

set_option maxRecDepth 100000 in
/-- Witness of C1: in `sample` the first `".text"` section is section 1, of size 32 at
offset 64, and the call returns those 32 bytes. -/
theorem text_payload_is_section_bytes_witness :
    ∃ out, compile_and_get_text sample 0 = some (TextResult.mk (some out) ((32 : Nat) : Int)) ∧
      out.length = 32 ∧ ∀ k, k < 32 → out[k]? = sample[64 + k]? :=
  text_payload_is_section_bytes sample 0 6 1 64 32 (ascii ".text") sample_well_formed
    (by decide) (by decide) (by decide) (by decide)
    (fun j nm hj h => by
      have hj0 : j = 0 := by omega
      subst hj0
      have h0 : section_name sample 0 = some [] := by decide
      rw [h0] at h
      rw [← Option.some.inj h]
      decide)
    (by decide) (by decide) (by decide)

/-- C2. When several sections have a name that starts with `".text"`, the one with the
smallest index is returned: if the section listing splits as `pre ++ e :: post`, no name
in `pre` starts with `".text"` and the name of `e` does, then `e` is the entry at index
`pre.length` and the payload is the range of `e`, whatever `post` holds. -/
theorem text_first_match_wins (elf : List Byte) (o : Int) (tbl pre post : List SectionLine)
    (e : SectionLine) (hlog : section_log elf = some tbl) (hsplit : tbl = pre ++ e :: post)
    (hpre : ∀ x ∈ pre, x.name.take 5 ≠ dot_text) (he : e.name.take 5 = dot_text)
    (hrange : e.off + e.size ≤ elf.length) (hlong : elf.length < 2 ^ 31) :
    e.index = pre.length ∧ section_name elf pre.length = some e.name ∧
      compile_and_get_text elf o
        = some (TextResult.mk (some ((elf.drop e.off).take e.size)) (e.size : Int)) := by
  have hget : tbl[pre.length]? = some e := by
    rw [hsplit, List.getElem?_append_right (Nat.le_refl _)]; simp
  obtain ⟨h1, h2, _, _⟩ := section_log_get elf tbl hlog pre.length e hget
  exact ⟨h1, h2, text_of_split elf o tbl pre post e hlog hsplit hpre he hrange hlong⟩

set_option maxRecDepth 100000 in
/-- Witness of C2: `two_text` has `".text"` at index 1 and `".text.startup"` at index 2;
the payload is the four bytes `aa` of index 1, not the four bytes `bb` of index 2. -/
theorem text_first_match_wins_witness :
    (SectionLine.mk 1 (ascii ".text") 64 4).index = 1 ∧ section_name two_text 1 = some (ascii ".text") ∧
      compile_and_get_text two_text 0 = some (TextResult.mk (some [0xaa, 0xaa, 0xaa, 0xaa]) 4) :=
  text_first_match_wins two_text 0
    [SectionLine.mk 0 [] 0 0, SectionLine.mk 1 (ascii ".text") 64 4,
      SectionLine.mk 2 (ascii ".text.startup") 68 4, SectionLine.mk 3 (ascii ".shstrtab") 72 31]
    [SectionLine.mk 0 [] 0 0]
    [SectionLine.mk 2 (ascii ".text.startup") 68 4, SectionLine.mk 3 (ascii ".shstrtab") 72 31]
    (SectionLine.mk 1 (ascii ".text") 64 4)
    (by decide) rfl (by decide) (by decide) (by decide) (by decide)

/-- C3. With `tbl` the section listing of the container: the call returns `NULL` exactly
when no name in `tbl` starts with `".text"`, and then `*out_size` keeps its value; a
first matching section of size 0 gives the success `(out, 0)` with `out` an empty,
non-null payload. -/
theorem text_null_iff_no_match (elf : List Byte) (o : Int) (tbl : List SectionLine)
    (hlog : section_log elf = some tbl) :
    ((∃ r, compile_and_get_text elf o = some r ∧ r.ret = none) ↔
        ∀ e ∈ tbl, e.name.take 5 ≠ dot_text) ∧
      ((∀ e ∈ tbl, e.name.take 5 ≠ dot_text) →
        compile_and_get_text elf o = some (TextResult.mk none o)) ∧
      (∀ pre e post, tbl = pre ++ e :: post → (∀ x ∈ pre, x.name.take 5 ≠ dot_text) →
        e.name.take 5 = dot_text → e.size = 0 → e.off ≤ elf.length →
        compile_and_get_text elf o = some (TextResult.mk (some []) 0)) := by
  have hnone : (∀ e ∈ tbl, e.name.take 5 ≠ dot_text) →
      compile_and_get_text elf o = some (TextResult.mk none o) := by
    intro h
    have hf : tbl.find? (fun x => is_text x.name) = none := by
      rw [List.find?_eq_none]
      intro x hx
      simp [is_text, h x hx]
    rw [compile_and_get_text_of_log elf o tbl hlog, hf]
  refine ⟨⟨?_, fun h => ⟨_, hnone h, rfl⟩⟩, hnone, ?_⟩
  · rintro ⟨r, hr, hnull⟩ e he htext
    have hsome : ∃ x, tbl.find? (fun x => is_text x.name) = some x := by
      cases hf : tbl.find? (fun x => is_text x.name) with
      | some x => exact ⟨x, rfl⟩
      | none =>
        rw [List.find?_eq_none] at hf
        exact absurd (by simp [is_text, htext]) (hf e he)
    obtain ⟨x, hx⟩ := hsome
    rw [compile_and_get_text_of_log elf o tbl hlog, hx] at hr
    simp only [Option.map_eq_some'] at hr
    obtain ⟨out, _, rfl⟩ := hr
    simp at hnull
  · intro pre e post hsplit hpre he hsize hoff
    have hfind : tbl.find? (fun x => is_text x.name) = some e := by
      rw [hsplit]
      exact find_split _ pre post e (fun x hx => by simp [is_text, hpre x hx])
        (by simp [is_text, he])
    rw [compile_and_get_text_of_log elf o tbl hlog, hfind]
    simp only [hsize, Nat.zero_mod, slice, Nat.add_zero, hoff, if_true, Option.map_some',
      List.take_zero]
    rfl

set_option maxRecDepth 100000 in
/-- Witness of C3: a container whose only named sections are `".data"` and `".shstrtab"`
gives `NULL` and leaves `*out_size` at 7; a container whose `".text"` has size 0 gives an
empty payload and `*out_size = 0`. -/
theorem text_null_iff_no_match_witness :
    compile_and_get_text (one_section ".data" 4) 7 = some (TextResult.mk none 7) ∧
      compile_and_get_text (one_section ".text" 0) 7 = some (TextResult.mk (some []) 0) :=
  ⟨(text_null_iff_no_match (one_section ".data" 4) 7
      [SectionLine.mk 0 [] 0 0, SectionLine.mk 1 (ascii ".data") 64 4,
        SectionLine.mk 2 (ascii ".shstrtab") 68 17] (by decide)).2.1 (by decide),
   (text_null_iff_no_match (one_section ".text" 0) 7
      [SectionLine.mk 0 [] 0 0, SectionLine.mk 1 (ascii ".text") 64 0,
        SectionLine.mk 2 (ascii ".shstrtab") 68 17] (by decide)).2.2
      [SectionLine.mk 0 [] 0 0] (SectionLine.mk 1 (ascii ".text") 64 0)
      [SectionLine.mk 2 (ascii ".shstrtab") 68 17] rfl (by decide) (by decide) rfl (by decide)⟩

/-! ## Read-only data -/

/-- C4. `extract_rodata` installs a copy of the first section, in table order, whose name
starts with `".rodata"` or with `".data.ro"`: if the section listing splits as
`pre ++ e :: post`, no name in `pre` starts with either spelling and the name of `e`
starts with one of them, the store holds the bytes of the range of `e` and its size, and
`get_rodata_data` returns them. -/
theorem rodata_first_match_installed (elf : List Byte) (s : Store)
    (tbl pre post : List SectionLine) (e : SectionLine)
    (hlog : section_log elf = some tbl) (hsplit : tbl = pre ++ e :: post)
    (hpre : ∀ x ∈ pre, x.name.take 7 ≠ dot_rodata ∧ x.name.take 8 ≠ dot_data_ro)
    (he : e.name.take 7 = dot_rodata ∨ e.name.take 8 = dot_data_ro)
    (hrange : e.off + e.size ≤ elf.length) (hlong : elf.length < 2 ^ 31) :
    ∃ t, extract_rodata s (some elf) = some t ∧
      t.g_rodata_data = some ((elf.drop e.off).take e.size) ∧
      t.g_rodata_size = (e.size : Int) ∧
      (get_rodata_data t).1 = TextResult.mk (some ((elf.drop e.off).take e.size)) (e.size : Int) :=
  ⟨_, rodata_of_split elf s tbl pre post e hlog hsplit hpre he hrange hlong, rfl, rfl, rfl⟩

set_option maxRecDepth 100000 in
/-- Witness of C4: `data_ro1` has no `".rodata"` section and a section `".data.ro1"` of 8
bytes; after `extract_rodata`, `get_rodata_data` returns those 8 bytes with size 8. -/
theorem rodata_first_match_installed_witness :
    ∃ t, extract_rodata Store.init (some data_ro1) = some t ∧
      t.g_rodata_data = some ((data_ro1.drop 68).take 8) ∧
      t.g_rodata_size = ((8 : Nat) : Int) ∧
      (get_rodata_data t).1 = TextResult.mk (some ((data_ro1.drop 68).take 8)) ((8 : Nat) : Int) :=
  rodata_first_match_installed data_ro1 Store.init
    [SectionLine.mk 0 [] 0 0, SectionLine.mk 1 (ascii ".text") 64 4,
      SectionLine.mk 2 (ascii ".data.ro1") 68 8, SectionLine.mk 3 (ascii ".shstrtab") 76 27]
    [SectionLine.mk 0 [] 0 0, SectionLine.mk 1 (ascii ".text") 64 4]
    [SectionLine.mk 3 (ascii ".shstrtab") 76 27]
    (SectionLine.mk 2 (ascii ".data.ro1") 68 8)
    (by decide) rfl (by decide) (by decide) (by decide) (by decide)

/-! ## Symbol decoding -/

/-- C5. For a container with a `.symtab` and a `.strtab` section (when a name occurs more
than once, the last section of that name, which is the one the code keeps) whose symbol
table lies inside the buffer, the functions `extract_symbols` reports are those of
`decode_function_symbols`: the `sh_size / 24` entries in table order, those whose low
four info bits equal 2, each with the string at `strtab.sh_offset + st_name` and its
`st_value`. Entry `i` is read from the buffer at `symtab.sh_offset + 24 * i`: `st_name` is
the little-endian field of 4 bytes at offset 0 of the entry, `st_info` the byte at offset
4, `st_value` the little-endian field of 8 bytes at offset 8; a reported name is the run
of non-zero bytes at `strtab.sh_offset + st_name` up to its terminator. There are as many
pairs as function-typed entries, in the original order. -/
theorem function_symbols_reported (elf : List Byte)
    (tbl pre1 post1 pre2 post2 : List SectionLine) (symtab strtab : SectionLine)
    (funcs : List FuncLine) (hlog : section_log elf = some tbl)
    (hsym : tbl = pre1 ++ symtab :: post1) (hsymname : symtab.name = dot_symtab)
    (hsymlast : ∀ x ∈ post1, x.name ≠ dot_symtab)
    (hstr : tbl = pre2 ++ strtab :: post2) (hstrname : strtab.name = dot_strtab)
    (hstrlast : ∀ x ∈ post2, x.name ≠ dot_strtab)
    (hrange : symtab.off + symtab.size ≤ elf.length) (hlong : elf.length < 2 ^ 31)
    (hdec : decode_function_symbols elf symtab.off symtab.size strtab.off = some funcs) :
    extract_symbols (some elf)
        = some (SymbolsResult.found ((symtab.size / 24 : Nat) : Int) funcs) ∧
      ∃ entries, all_some ((List.range (symtab.size / 24)).map (symbol_entry elf symtab.off))
          = some entries ∧
        entries.length = symtab.size / 24 ∧
        (∀ (i : Nat) (s : SymbolEntry), entries[i]? = some s →
          read_le elf (symtab.off + 24 * i) 4 = some s.st_name ∧
          read_le elf (symtab.off + 24 * i + 4) 1 = some s.st_info ∧
          read_le elf (symtab.off + 24 * i + 8) 8 = some s.st_value) ∧
        (∀ s : SymbolEntry, is_function s = true ↔ s.st_info % 16 = 2) ∧
        funcs.length = entries.countP is_function ∧
        funcs.map FuncLine.value = (entries.filter is_function).map SymbolEntry.st_value ∧
        (∀ (k : Nat) (s : SymbolEntry), (entries.filter is_function)[k]? = some s →
          ∃ f : FuncLine, funcs[k]? = some f ∧ cstr elf (strtab.off + s.st_name) = some f.name ∧
            slice elf (strtab.off + s.st_name) (f.name.length + 1) = some (f.name ++ [0]) ∧
            (∀ b ∈ f.name, b ≠ 0) ∧ f.value = s.st_value) ∧
        ∀ off w v, read_le elf off w = some v →
          v = ((List.range w).map (fun k => (elf.getD (off + k) 0).val * 256 ^ k)).sum := by
  obtain ⟨shoff, shnum, ndx, shstrtab, h1, h2, h3, h4, h5⟩ := section_log_eq_some elf tbl hlog
  obtain ⟨shoff1, g1, symo, syms⟩ := section_log_index elf tbl pre1 post1 symtab hlog hsym
  obtain ⟨shoff2, g2, stro, _⟩ := section_log_index elf tbl pre2 post2 strtab hlog hstr
  have q1 : shoff1 = shoff := Option.some.inj (g1.symm.trans h1)
  have q2 : shoff2 = shoff := Option.some.inj (g2.symm.trans h1)
  rw [q1] at symo syms
  rw [q2] at stro
  have hloc := locate_tables_of_log elf shoff shstrtab shnum 0 tbl none none h5
  have l1 : last_named dot_symtab tbl none = some symtab.index := by
    rw [hsym]; exact last_named_split _ pre1 post1 symtab none hsymname hsymlast
  have l2 : last_named dot_strtab tbl none = some strtab.index := by
    rw [hstr]; exact last_named_split _ pre2 post2 strtab none hstrname hstrlast
  rw [l1, l2] at hloc
  have hnum : to_int32 (symtab.size / 24) = ((symtab.size / 24 : Nat) : Int) :=
    to_int32_of_lt _ (by omega)
  have hrep := report_symbols_spec elf symtab.off strtab.off (symtab.size / 24) 0 (by omega)
  rw [← List.range_eq_range'] at hrep
  have hdec2 := hdec
  unfold decode_function_symbols at hdec2
  rw [← hrep] at hdec2
  refine ⟨?_, ?_⟩
  · simp only [extract_symbols, h1, h2, h3, h4, hloc, symo, syms, stro, Option.bind_eq_bind,
      Option.some_bind, hnum, Int.toNat_ofNat, hdec2, Option.pure_def]
  · unfold decode_function_symbols at hdec
    rw [Option.bind_eq_some] at hdec
    obtain ⟨entries, he, hf⟩ := hdec
    have hl := all_some_length _ _ he
    have hfl := all_some_length _ _ hf
    obtain ⟨v1, v2⟩ := function_line_values elf strtab.off _ funcs hf
    refine ⟨entries, he, ?_, symbol_entries_fields elf symtab.off _ entries he, ?_, ?_, v1,
      ?_, ?_⟩
    · simpa using hl
    · intro s; simp [is_function]
    · rw [hfl, List.length_map, List.countP_eq_length_filter]
    · intro k s hk
      obtain ⟨f, hf1, hf2, hf3⟩ := v2 k s hk
      obtain ⟨c1, c2⟩ := cstr_slice elf (strtab.off + s.st_name) f.name hf2
      exact ⟨f, hf1, hf2, c1, c2, hf3⟩
    · intro off w v h
      exact (read_le_little_endian elf off w v h).2

set_option maxRecDepth 100000 in
/-- Witness of C5: in `sample` the symbols are `main` (a global function at 0) and
`g_var` (a global object at 0x40), and only `main` at address 0 is reported; in
`symtab_sized 48` both symbols are functions and `first` at 0x10 and `second` at 0x20 are
reported, in that order. -/
theorem function_symbols_reported_witness :
    extract_symbols (some sample)
        = some (SymbolsResult.found ((48 / 24 : Nat) : Int) [FuncLine.mk (ascii "main") 0]) ∧
      extract_symbols (some (symtab_sized 48))
        = some (SymbolsResult.found ((48 / 24 : Nat) : Int)
            [FuncLine.mk (ascii "first") 0x10, FuncLine.mk (ascii "second") 0x20]) :=
  ⟨(function_symbols_reported sample sample_table
      [SectionLine.mk 0 [] 0 0, SectionLine.mk 1 (ascii ".text") 64 32,
        SectionLine.mk 2 (ascii ".rodata.str1.1") 96 8]
      [SectionLine.mk 4 (ascii ".strtab") 152 12, SectionLine.mk 5 (ascii ".shstrtab") 164 48]
      [SectionLine.mk 0 [] 0 0, SectionLine.mk 1 (ascii ".text") 64 32,
        SectionLine.mk 2 (ascii ".rodata.str1.1") 96 8, SectionLine.mk 3 (ascii ".symtab") 104 48]
      [SectionLine.mk 5 (ascii ".shstrtab") 164 48]
      (SectionLine.mk 3 (ascii ".symtab") 104 48) (SectionLine.mk 4 (ascii ".strtab") 152 12)
      [FuncLine.mk (ascii "main") 0]
      sample_log rfl (by decide) (by decide) rfl (by decide) (by decide) (by decide) (by decide)
      (by decide)).1,
    (function_symbols_reported (symtab_sized 48) (symtab_sized_table 48)
      [SectionLine.mk 0 [] 0 0]
      [SectionLine.mk 2 (ascii ".strtab") 112 14, SectionLine.mk 3 (ascii ".shstrtab") 126 27]
      [SectionLine.mk 0 [] 0 0, SectionLine.mk 1 (ascii ".symtab") 64 48]
      [SectionLine.mk 3 (ascii ".shstrtab") 126 27]
      (SectionLine.mk 1 (ascii ".symtab") 64 48) (SectionLine.mk 2 (ascii ".strtab") 112 14)
      [FuncLine.mk (ascii "first") 0x10, FuncLine.mk (ascii "second") 0x20]
      (by decide) rfl (by decide) (by decide) rfl (by decide) (by decide) (by decide) (by decide)
      (by decide)).1⟩

/-! ## Section resolution -/

/-- C6. For a well-formed container the section listing has `e_shnum` lines, line `i`
carries the index `i` (so the indices are `0, 1, .., e_shnum - 1` in that order), its
fields are the little-endian fields of the 64-byte entry at `e_shoff + 64 * i`, and its
name is the NUL-terminated byte string at `sh[e_shstrndx].sh_offset + sh[i].sh_name`.
The header fields are the little-endian fields at offsets 40, 60 and 62. -/
theorem sections_enumerated_in_order (elf : List Byte) (hwf : WellFormed elf) :
    ∃ shoff shnum shstrndx strtab tbl,
      read_le elf 40 8 = some shoff ∧ read_le elf 60 2 = some shnum ∧
      read_le elf 62 2 = some shstrndx ∧
      read_le elf (shoff + 64 * shstrndx + 24) 8 = some strtab ∧
      section_log elf = some tbl ∧ tbl.length = shnum ∧
      tbl.map SectionLine.index = List.range shnum ∧
      (∀ (i : Nat) (e : SectionLine), tbl[i]? = some e →
        ∃ nm, read_le elf (shoff + 64 * i) 4 = some nm ∧
          read_le elf (shoff + 64 * i + 24) 8 = some e.off ∧
          read_le elf (shoff + 64 * i + 32) 8 = some e.size ∧
          section_name elf i = some e.name ∧
          slice elf (strtab + nm) (e.name.length + 1) = some (e.name ++ [0]) ∧
          ∀ b ∈ e.name, b ≠ 0) ∧
      ∀ off w v, read_le elf off w = some v →
        v = ((List.range w).map (fun k => (elf.getD (off + k) 0).val * 256 ^ k)).sum := by
  obtain ⟨tbl, hlog⟩ := section_log_of_wf elf hwf
  obtain ⟨shoff, shnum, ndx, strtab, h1, h2, h3, h4, h5⟩ := section_log_eq_some elf tbl hlog
  have hlen := print_sections_length elf shoff strtab shnum 0 tbl h5
  refine ⟨shoff, shnum, ndx, strtab, tbl, h1, h2, h3, h4, hlog, hlen, ?_, ?_, ?_⟩
  · apply List.ext_getElem?
    intro i
    by_cases hi : i < tbl.length
    · have hget : tbl[i]? = some tbl[i] := List.getElem?_eq_getElem hi
      have hx := (print_sections_get elf shoff strtab shnum 0 tbl h5 i tbl[i] hget).1
      rw [List.getElem?_map, hget, Option.map_some', hx, Nat.zero_add,
        List.getElem?_range (hlen ▸ hi)]
    · have hi2 : tbl.length ≤ i := Nat.le_of_not_lt hi
      rw [List.getElem?_eq_none (by simpa using hi2),
        List.getElem?_eq_none (by simpa [hlen] using hi2)]
  · intro i e he
    obtain ⟨_, nm, hn, hc, ho, hs⟩ := print_sections_get elf shoff strtab shnum 0 tbl h5 i e he
    simp only [Nat.zero_add] at hn ho hs
    obtain ⟨c1, c2⟩ := cstr_slice elf (strtab + nm) e.name hc
    exact ⟨nm, hn, ho, hs, (section_log_get elf tbl hlog i e he).2.1, c1, c2⟩
  · intro off w v h
    exact (read_le_little_endian elf off w v h).2

/-- Witness of C6: the container `sample`. -/
theorem sections_enumerated_in_order_witness :
    ∃ shoff shnum shstrndx strtab tbl,
      read_le sample 40 8 = some shoff ∧ read_le sample 60 2 = some shnum ∧
      read_le sample 62 2 = some shstrndx ∧
      read_le sample (shoff + 64 * shstrndx + 24) 8 = some strtab ∧
      section_log sample = some tbl ∧ tbl.length = shnum ∧
      tbl.map SectionLine.index = List.range shnum ∧
      (∀ (i : Nat) (e : SectionLine), tbl[i]? = some e →
        ∃ nm, read_le sample (shoff + 64 * i) 4 = some nm ∧
          read_le sample (shoff + 64 * i + 24) 8 = some e.off ∧
          read_le sample (shoff + 64 * i + 32) 8 = some e.size ∧
          section_name sample i = some e.name ∧
          slice sample (strtab + nm) (e.name.length + 1) = some (e.name ++ [0]) ∧
          ∀ b ∈ e.name, b ≠ 0) ∧
      ∀ off w v, read_le sample off w = some v →
        v = ((List.range w).map (fun k => (sample.getD (off + k) 0).val * 256 ^ k)).sum :=
  sections_enumerated_in_order sample sample_well_formed

/-! ## The store -/

/-- C7. Store round trip: from any store the program can be in, and for a container
whose first read-only-data section (first name starting with `".rodata"` or
`".data.ro"`) has the payload `P`, `extract_rodata` followed by `get_rodata_data` and
`get_rodata_base` gives `P`, the size `|P|` and the base address `0x3000`. -/
theorem rodata_store_round_trip (s : Store) (elf : List Byte)
    (tbl pre post : List SectionLine) (e : SectionLine) (P : List Byte)
    (hs : Reachable s) (hlog : section_log elf = some tbl) (hsplit : tbl = pre ++ e :: post)
    (hpre : ∀ x ∈ pre, x.name.take 7 ≠ dot_rodata ∧ x.name.take 8 ≠ dot_data_ro)
    (he : e.name.take 7 = dot_rodata ∨ e.name.take 8 = dot_data_ro)
    (hP : slice elf e.off e.size = some P) (hlong : elf.length < 2 ^ 31) :
    ∃ t, extract_rodata s (some elf) = some t ∧
      (get_rodata_data t).1 = TextResult.mk (some P) (P.length : Int) ∧
      (get_rodata_base (get_rodata_data t).2).1 = 0x3000 := by
  have hrange : e.off + e.size ≤ elf.length := by
    by_contra hc
    simp [slice, hc] at hP
  have hPeq : P = (elf.drop e.off).take e.size := by
    rw [slice_of_le elf e.off e.size hrange] at hP
    exact (Option.some.inj hP).symm
  have hlen : P.length = e.size := by
    rw [hPeq, List.length_take, List.length_drop]; omega
  refine ⟨_, rodata_of_split elf s tbl pre post e hlog hsplit hpre he hrange hlong, ?_, ?_⟩
  · rw [hlen, hPeq]; rfl
  · exact (reachable_inv s hs).1

set_option maxRecDepth 100000 in
/-- Witness of C7: the store that holds the payload of `data_ro1`, then `extract_rodata`
on `sample`, whose `".rodata.str1.1"` holds `hello` and three zero bytes. -/
theorem rodata_store_round_trip_witness :
    ∃ t, extract_rodata (Store.mk (some [1, 2, 3, 4, 5, 6, 7, 8]) 8 0x3000) (some sample) = some t ∧
      (get_rodata_data t).1
        = TextResult.mk (some (ascii "hello" ++ zeros 3)) ((ascii "hello" ++ zeros 3).length : Int) ∧
      (get_rodata_base (get_rodata_data t).2).1 = 0x3000 :=
  rodata_store_round_trip (Store.mk (some [1, 2, 3, 4, 5, 6, 7, 8]) 8 0x3000) sample sample_table
    [SectionLine.mk 0 [] 0 0, SectionLine.mk 1 (ascii ".text") 64 32]
    [SectionLine.mk 3 (ascii ".symtab") 104 48, SectionLine.mk 4 (ascii ".strtab") 152 12,
      SectionLine.mk 5 (ascii ".shstrtab") 164 48]
    (SectionLine.mk 2 (ascii ".rodata.str1.1") 96 8) (ascii "hello" ++ zeros 3)
    ⟨[Call.extract_rodata (some data_ro1)], by decide⟩
    sample_log rfl (by decide) (by decide) (by decide) (by decide)

/-- C8. `get_rodata_data` and `get_rodata_base` leave the three variables unchanged, so
after any sequence of such calls (`true` a call of `get_rodata_data`, `false` a call of
`get_rodata_base`) the store is the same and both functions return what they returned
before; with a null payload the result is `(NULL, 0)`, with a payload it is the payload
and the recorded size. -/
theorem rodata_getters_read_only (s : Store) (calls : List Bool) :
    (get_rodata_data s).2 = s ∧ (get_rodata_base s).2 = s ∧
      run s (calls.map (fun b => if b then Call.get_rodata_data else Call.get_rodata_base))
        = some s ∧
      (∀ size base, (get_rodata_data (Store.mk none size base)).1 = TextResult.mk none 0) ∧
      (∀ data size base,
        (get_rodata_data (Store.mk (some data) size base)).1 = TextResult.mk (some data) size) := by
  have hd : ∀ u : Store, (get_rodata_data u).2 = u := by
    intro u; unfold get_rodata_data; cases u.g_rodata_data <;> rfl
  refine ⟨hd s, rfl, ?_, fun _ _ => rfl, fun _ _ _ => rfl⟩
  induction calls with
  | nil => rfl
  | cons b bs ih =>
    cases b with
    | true => simp only [List.map_cons, if_true, run, step, hd, Option.some_bind]; exact ih
    | false =>
      simp only [List.map_cons, Bool.false_eq_true, if_false, run, step, get_rodata_base,
        Option.some_bind]
      exact ih

/-- C9. Replace, never retain: from any two stores the program can be in, `extract_rodata`
on the same file gives the same store; and when the file is a container whose first
read-only-data section has the payload `P2`, `get_rodata_data` then returns `P2`, whatever
the store held before. -/
theorem extract_rodata_replaces (s1 s2 : Store) (file : Option (List Byte))
    (h1 : Reachable s1) (h2 : Reachable s2) :
    extract_rodata s1 file = extract_rodata s2 file ∧
      ∀ elf tbl pre e post P2, file = some elf → section_log elf = some tbl →
        tbl = pre ++ e :: post →
        (∀ x ∈ pre, x.name.take 7 ≠ dot_rodata ∧ x.name.take 8 ≠ dot_data_ro) →
        (e.name.take 7 = dot_rodata ∨ e.name.take 8 = dot_data_ro) →
        slice elf e.off e.size = some P2 → elf.length < 2 ^ 31 →
        ∃ t, extract_rodata s1 file = some t ∧ extract_rodata s2 file = some t ∧
          (get_rodata_data t).1 = TextResult.mk (some P2) (P2.length : Int) := by
  have heq : extract_rodata s1 file = extract_rodata s2 file := by
    rw [extract_rodata_reachable s1 file h1, extract_rodata_reachable s2 file h2]
  refine ⟨heq, ?_⟩
  intro elf tbl pre e post P2 hfile hlog hsplit hpre he hP hlong
  subst hfile
  have hrange : e.off + e.size ≤ elf.length := by
    by_contra hc
    simp [slice, hc] at hP
  have hPeq : P2 = (elf.drop e.off).take e.size := by
    rw [slice_of_le elf e.off e.size hrange] at hP
    exact (Option.some.inj hP).symm
  have hlen : P2.length = e.size := by
    rw [hPeq, List.length_take, List.length_drop]; omega
  have hx := rodata_of_split elf s1 tbl pre post e hlog hsplit hpre he hrange hlong
  refine ⟨_, hx, heq ▸ hx, ?_⟩
  rw [hlen, hPeq]; rfl

set_option maxRecDepth 100000 in
/-- Witness of C9: the store that holds the payload of `sample` and the initial store
give the same store after `extract_rodata` on `data_ro1`: the payload `01 .. 08`. -/
theorem extract_rodata_replaces_witness :
    extract_rodata (Store.mk (some (ascii "hello" ++ zeros 3)) 8 0x3000) (some data_ro1)
        = extract_rodata Store.init (some data_ro1) ∧
      extract_rodata (Store.mk (some (ascii "hello" ++ zeros 3)) 8 0x3000) (some data_ro1)
        = some (Store.mk (some [1, 2, 3, 4, 5, 6, 7, 8]) 8 0x3000) :=
  ⟨(extract_rodata_replaces (Store.mk (some (ascii "hello" ++ zeros 3)) 8 0x3000) Store.init
      (some data_ro1) ⟨[Call.extract_rodata (some sample)], by decide⟩ ⟨[], rfl⟩).1,
    by decide⟩

/-- C10. In every store the program can be in, after any sequence of calls of the five
functions on any files, `get_rodata_base` returns `0x3000`. -/
theorem rodata_base_is_constant (s : Store) (h : Reachable s) :
    (get_rodata_base s).1 = 0x3000 :=
  (reachable_inv s h).1

set_option maxRecDepth 100000 in
/-- Witness of C10: the store after a sequence of calls of all five functions. -/
theorem rodata_base_is_constant_witness :
    run Store.init [Call.extract_rodata (some sample), Call.compile_and_get_text sample 0,
        Call.extract_symbols (some sample), Call.get_rodata_data, Call.get_rodata_base,
        Call.extract_rodata (some data_ro1)]
      = some (Store.mk (some [1, 2, 3, 4, 5, 6, 7, 8]) 8 0x3000) ∧
    (get_rodata_base (Store.mk (some [1, 2, 3, 4, 5, 6, 7, 8]) 8 0x3000)).1 = 0x3000 :=
  ⟨by decide, rodata_base_is_constant (Store.mk (some [1, 2, 3, 4, 5, 6, 7, 8]) 8 0x3000)
    ⟨[Call.extract_rodata (some sample), Call.compile_and_get_text sample 0,
        Call.extract_symbols (some sample), Call.get_rodata_data, Call.get_rodata_base,
        Call.extract_rodata (some data_ro1)], by decide⟩⟩

/-! ## Symbol tables: selection, truncation, absence -/

set_option maxRecDepth 100000 in
/-- Counterexample to C11: in `two_symtab` sections 1 and 2 are both named `".symtab"`;
the section with the smallest index holds the function `first`, yet `extract_symbols`
reports `second`, the function of section 2. -/
theorem symtab_smallest_index_refuted :
    section_name two_symtab 1 = some dot_symtab ∧ section_name two_symtab 2 = some dot_symtab ∧
      section_offset two_symtab 1 = some 64 ∧ section_size two_symtab 1 = some 24 ∧
      decode_function_symbols two_symtab 64 24 112 = some [FuncLine.mk (ascii "first") 0x10] ∧
      extract_symbols (some two_symtab)
        = some (SymbolsResult.found 1 [FuncLine.mk (ascii "second") 0x20]) ∧
      extract_symbols (some two_symtab)
        ≠ some (SymbolsResult.found 1 [FuncLine.mk (ascii "first") 0x10]) := by
  decide

/-- C11, amended. Among several sections named exactly `".symtab"` (or `".strtab"`)
`extract_symbols` decodes from the one with the largest index: if the listing splits as
`pre1 ++ symtab :: post1` with no `".symtab"` in `post1`, and as `pre2 ++ strtab :: post2`
with no `".strtab"` in `post2`, whatever `pre1` and `pre2` hold, the reported functions
are those decoded from `symtab` (index `|pre1|`) and `strtab` (index `|pre2|`). -/
theorem symtab_last_match_wins (elf : List Byte)
    (tbl pre1 post1 pre2 post2 : List SectionLine) (symtab strtab : SectionLine)
    (funcs : List FuncLine) (hlog : section_log elf = some tbl)
    (hsym : tbl = pre1 ++ symtab :: post1) (hsymname : symtab.name = dot_symtab)
    (hsymlast : ∀ x ∈ post1, x.name ≠ dot_symtab)
    (hstr : tbl = pre2 ++ strtab :: post2) (hstrname : strtab.name = dot_strtab)
    (hstrlast : ∀ x ∈ post2, x.name ≠ dot_strtab)
    (hrange : symtab.off + symtab.size ≤ elf.length) (hlong : elf.length < 2 ^ 31)
    (hdec : decode_function_symbols elf symtab.off symtab.size strtab.off = some funcs) :
    symtab.index = pre1.length ∧ strtab.index = pre2.length ∧
      (∀ j e, tbl[j]? = some e → e.name = dot_symtab → j ≤ symtab.index) ∧
      (∀ j e, tbl[j]? = some e → e.name = dot_strtab → j ≤ strtab.index) ∧
      extract_symbols (some elf)
        = some (SymbolsResult.found ((symtab.size / 24 : Nat) : Int) funcs) := by
  have hget1 : tbl[pre1.length]? = some symtab := by
    rw [hsym, List.getElem?_append_right (Nat.le_refl _)]; simp
  have hget2 : tbl[pre2.length]? = some strtab := by
    rw [hstr, List.getElem?_append_right (Nat.le_refl _)]; simp
  have i1 := (section_log_get elf tbl hlog pre1.length symtab hget1).1
  have i2 := (section_log_get elf tbl hlog pre2.length strtab hget2).1
  have hmax : ∀ (lit : List Byte) (pre post : List SectionLine) (x : SectionLine),
      tbl = pre ++ x :: post → (∀ y ∈ post, y.name ≠ lit) →
      ∀ j e, tbl[j]? = some e → e.name = lit → j ≤ pre.length := by
    intro lit pre post x hs hp j e hj hn
    by_contra hgt
    have hgt2 : pre.length + 1 ≤ j := by omega
    rw [hs] at hj
    have hsplit2 : pre ++ x :: post = (pre ++ [x]) ++ post := by simp
    rw [hsplit2, List.getElem?_append_right (by simpa using hgt2)] at hj
    exact hp e (List.getElem?_mem hj) hn
  refine ⟨i1, i2, ?_, ?_, ?_⟩
  · rw [i1]; exact hmax dot_symtab pre1 post1 symtab hsym hsymlast
  · rw [i2]; exact hmax dot_strtab pre2 post2 strtab hstr hstrlast
  · exact extract_symbols_decoded elf tbl pre1 post1 pre2 post2 symtab strtab funcs hlog hsym
      hsymname hsymlast hstr hstrname hstrlast hrange hlong hdec

set_option maxRecDepth 100000 in
/-- Witness of C11, amended: in `two_symtab` the second `".symtab"` (index 2) is decoded. -/
theorem symtab_last_match_wins_witness :
    extract_symbols (some two_symtab)
      = some (SymbolsResult.found ((24 / 24 : Nat) : Int) [FuncLine.mk (ascii "second") 0x20]) :=
  (symtab_last_match_wins two_symtab two_symtab_table
    [SectionLine.mk 0 [] 0 0, SectionLine.mk 1 (ascii ".symtab") 64 24]
    [SectionLine.mk 3 (ascii ".strtab") 112 14, SectionLine.mk 4 (ascii ".shstrtab") 126 27]
    [SectionLine.mk 0 [] 0 0, SectionLine.mk 1 (ascii ".symtab") 64 24,
      SectionLine.mk 2 (ascii ".symtab") 88 24]
    [SectionLine.mk 4 (ascii ".shstrtab") 126 27]
    (SectionLine.mk 2 (ascii ".symtab") 88 24) (SectionLine.mk 3 (ascii ".strtab") 112 14)
    [FuncLine.mk (ascii "second") 0x20]
    (by decide) rfl (by decide) (by decide) rfl (by decide) (by decide) (by decide) (by decide)
    (by decide)).2.2.2.2

set_option maxRecDepth 100000 in
/-- Counterexample to C12: the `".symtab"` of `symtab_sized 40` has a size that is not a
multiple of 24, and `extract_symbols` reports no error: it decodes `40 / 24 = 1` entry
and reports the function `first`. -/
theorem truncated_symtab_refuted :
    section_log (symtab_sized 40) = some (symtab_sized_table 40) ∧ 40 % 24 ≠ 0 ∧
      extract_symbols (some (symtab_sized 40))
        = some (SymbolsResult.found 1 [FuncLine.mk (ascii "first") 0x10]) := by
  decide

/-- C12, amended. When the size of `.symtab` is not a multiple of 24, `extract_symbols`
still decodes: it walks the `sh_size / 24` (rounded down) whole entries, ignores the
remaining `sh_size % 24` bytes, and reports the functions among the whole entries. -/
theorem truncated_symtab_decoded (elf : List Byte)
    (tbl pre1 post1 pre2 post2 : List SectionLine) (symtab strtab : SectionLine)
    (funcs : List FuncLine) (hlog : section_log elf = some tbl)
    (hsym : tbl = pre1 ++ symtab :: post1) (hsymname : symtab.name = dot_symtab)
    (hsymlast : ∀ x ∈ post1, x.name ≠ dot_symtab)
    (hstr : tbl = pre2 ++ strtab :: post2) (hstrname : strtab.name = dot_strtab)
    (hstrlast : ∀ x ∈ post2, x.name ≠ dot_strtab)
    (hmod : symtab.size % 24 ≠ 0)
    (hrange : symtab.off + symtab.size ≤ elf.length) (hlong : elf.length < 2 ^ 31)
    (hdec : decode_function_symbols elf symtab.off (24 * (symtab.size / 24)) strtab.off
      = some funcs) :
    extract_symbols (some elf)
        = some (SymbolsResult.found ((symtab.size / 24 : Nat) : Int) funcs) ∧
      24 * (symtab.size / 24) < symtab.size := by
  have hq : 24 * (symtab.size / 24) / 24 = symtab.size / 24 := by omega
  have hdec2 : decode_function_symbols elf symtab.off symtab.size strtab.off = some funcs := by
    unfold decode_function_symbols at hdec ⊢
    rw [hq] at hdec
    exact hdec
  refine ⟨extract_symbols_decoded elf tbl pre1 post1 pre2 post2 symtab strtab funcs hlog hsym
    hsymname hsymlast hstr hstrname hstrlast hrange hlong hdec2, ?_⟩
  omega

set_option maxRecDepth 100000 in
/-- Witness of C12, amended: `symtab_sized 40`, where one whole entry is decoded. -/
theorem truncated_symtab_decoded_witness :
    extract_symbols (some (symtab_sized 40))
        = some (SymbolsResult.found ((40 / 24 : Nat) : Int) [FuncLine.mk (ascii "first") 0x10]) ∧
      24 * (40 / 24) < 40 :=
  truncated_symtab_decoded (symtab_sized 40) (symtab_sized_table 40)
    [SectionLine.mk 0 [] 0 0]
    [SectionLine.mk 2 (ascii ".strtab") 112 14, SectionLine.mk 3 (ascii ".shstrtab") 126 27]
    [SectionLine.mk 0 [] 0 0, SectionLine.mk 1 (ascii ".symtab") 64 40]
    [SectionLine.mk 3 (ascii ".shstrtab") 126 27]
    (SectionLine.mk 1 (ascii ".symtab") 64 40) (SectionLine.mk 2 (ascii ".strtab") 112 14)
    [FuncLine.mk (ascii "first") 0x10]
    (by decide) rfl (by decide) (by decide) rfl (by decide) (by decide) (by decide) (by decide)
    (by decide) (by decide)

/-- C13. With `tbl` the section listing of the container: when no section is named
exactly `".symtab"` or none is named exactly `".strtab"`, `extract_symbols` prints the
not-found message and reports no function; when both names occur the result is never the
not-found message, and for a symbol table inside the buffer the functions are decoded
and reported. -/
theorem symbols_need_both_tables (elf : List Byte) (tbl : List SectionLine)
    (hlog : section_log elf = some tbl) :
    (((∀ e ∈ tbl, e.name ≠ dot_symtab) ∨ (∀ e ∈ tbl, e.name ≠ dot_strtab)) →
        extract_symbols (some elf) = some SymbolsResult.tables_not_found) ∧
      ((∃ e ∈ tbl, e.name = dot_symtab) → (∃ e ∈ tbl, e.name = dot_strtab) →
        extract_symbols (some elf) ≠ some SymbolsResult.tables_not_found) ∧
      (∀ (pre1 post1 pre2 post2 : List SectionLine) (symtab strtab : SectionLine)
        (funcs : List FuncLine),
        tbl = pre1 ++ symtab :: post1 → symtab.name = dot_symtab →
        (∀ x ∈ post1, x.name ≠ dot_symtab) →
        tbl = pre2 ++ strtab :: post2 → strtab.name = dot_strtab →
        (∀ x ∈ post2, x.name ≠ dot_strtab) →
        symtab.off + symtab.size ≤ elf.length → elf.length < 2 ^ 31 →
        decode_function_symbols elf symtab.off symtab.size strtab.off = some funcs →
        extract_symbols (some elf)
          = some (SymbolsResult.found ((symtab.size / 24 : Nat) : Int) funcs)) := by
  refine ⟨extract_symbols_missing elf tbl hlog, ?_, ?_⟩
  · intro h1 h2 hres
    obtain ⟨i, hi⟩ := last_named_some dot_symtab tbl none h1
    obtain ⟨j, hj⟩ := last_named_some dot_strtab tbl none h2
    rw [extract_symbols_of_log elf tbl hlog, hi, hj] at hres
    simp only [Option.bind_eq_some, Option.map_eq_some'] at hres
    obtain ⟨_, _, _, _, _, _, _, _, _, _, hbad⟩ := hres
    cases hbad
  · intro pre1 post1 pre2 post2 symtab strtab funcs hsym hsymname hsymlast hstr hstrname
      hstrlast hrange hlong hdec
    exact extract_symbols_decoded elf tbl pre1 post1 pre2 post2 symtab strtab funcs hlog hsym
      hsymname hsymlast hstr hstrname hstrlast hrange hlong hdec

set_option maxRecDepth 100000 in
/-- Witness of C13: `data_ro1` has neither a `".symtab"` nor a `".strtab"` section. -/
theorem symbols_need_both_tables_witness :
    extract_symbols (some data_ro1) = some SymbolsResult.tables_not_found :=
  (symbols_need_both_tables data_ro1 data_ro1_table (by decide)).1 (Or.inl (by decide))

/-! ## Absent validation -/

set_option maxRecDepth 100000 in
/-- Counterexample to C14: `sample_entsize65` has
`e_shoff + e_shnum * e_shentsize = 216 + 6 * 65 > 600`, its length, and all three
functions return what they return for `sample`; `data_ro1_shnum9` has
`104 + 9 * 64 > 360` and `extract_rodata` installs the payload of its third section. -/
theorem malformed_header_refuted :
    e_shoff sample_entsize65 = some 216 ∧ e_shnum sample_entsize65 = some 6 ∧
      e_shentsize sample_entsize65 = some 65 ∧ sample_entsize65.length < 216 + 6 * 65 ∧
      compile_and_get_text sample_entsize65 0 = some (TextResult.mk (some text32) 32) ∧
      extract_symbols (some sample_entsize65)
        = some (SymbolsResult.found 2 [FuncLine.mk (ascii "main") 0]) ∧
      extract_rodata Store.init (some sample_entsize65)
        = some (Store.mk (some (ascii "hello" ++ zeros 3)) 8 0x3000) ∧
      e_shoff data_ro1_shnum9 = some 104 ∧ e_shnum data_ro1_shnum9 = some 9 ∧
      e_shentsize data_ro1_shnum9 = some 64 ∧ data_ro1_shnum9.length < 104 + 9 * 64 ∧
      extract_rodata Store.init (some data_ro1_shnum9)
        = some (Store.mk (some [1, 2, 3, 4, 5, 6, 7, 8]) 8 0x3000) := by
  decide

/-- C14, amended. A buffer with `e_shoff + e_shnum * e_shentsize` above its length is not
rejected: no function checks the header or reads `e_shentsize`; the entries are read at
`e_shoff + 64 * i`. When the section listing resolves, `compile_and_get_text` returns the
first `".text"` payload, `extract_symbols` reports the decoded functions and
`extract_rodata` installs the first read-only payload, as for any other buffer; and
`extract_rodata` does so already when the entries up to its first match resolve, whether
or not the later ones lie inside the buffer. -/
theorem header_bounds_not_checked (elf : List Byte) (o : Int) (s : Store)
    (shoff shnum shentsize shstrndx strtab : Nat)
    (h1 : e_shoff elf = some shoff) (h2 : e_shnum elf = some shnum)
    (_h3 : e_shentsize elf = some shentsize) (h4 : e_shstrndx elf = some shstrndx)
    (h5 : sh_offset elf shoff shstrndx = some strtab)
    (_hmal : elf.length < shoff + shnum * shentsize) (hlong : elf.length < 2 ^ 31) :
    (∀ (tbl pre post : List SectionLine) (e : SectionLine), section_log elf = some tbl →
        tbl = pre ++ e :: post → (∀ x ∈ pre, x.name.take 5 ≠ dot_text) →
        e.name.take 5 = dot_text → e.off + e.size ≤ elf.length →
        compile_and_get_text elf o
          = some (TextResult.mk (some ((elf.drop e.off).take e.size)) (e.size : Int))) ∧
      (∀ (tbl pre1 post1 pre2 post2 : List SectionLine) (symtab strtab : SectionLine)
        (funcs : List FuncLine), section_log elf = some tbl →
        tbl = pre1 ++ symtab :: post1 → symtab.name = dot_symtab →
        (∀ x ∈ post1, x.name ≠ dot_symtab) →
        tbl = pre2 ++ strtab :: post2 → strtab.name = dot_strtab →
        (∀ x ∈ post2, x.name ≠ dot_strtab) →
        symtab.off + symtab.size ≤ elf.length →
        decode_function_symbols elf symtab.off symtab.size strtab.off = some funcs →
        extract_symbols (some elf)
          = some (SymbolsResult.found ((symtab.size / 24 : Nat) : Int) funcs)) ∧
      (∀ (pre : List SectionLine) (e : SectionLine),
        print_sections elf shoff strtab (pre.length + 1) 0 = some (pre ++ [e]) →
        pre.length < shnum →
        (∀ x ∈ pre, x.name.take 7 ≠ dot_rodata ∧ x.name.take 8 ≠ dot_data_ro) →
        (e.name.take 7 = dot_rodata ∨ e.name.take 8 = dot_data_ro) →
        e.off + e.size ≤ elf.length →
        extract_rodata s (some elf)
          = some (Store.mk (some ((elf.drop e.off).take e.size)) (e.size : Int)
              s.g_rodata_base)) := by
  refine ⟨?_, ?_, ?_⟩
  · intro tbl pre post e hlog hsplit hpre he hrange
    exact text_of_split elf o tbl pre post e hlog hsplit hpre he hrange hlong
  · intro tbl pre1 post1 pre2 post2 symtab strtab funcs hlog hsym hsymname hsymlast hstr
      hstrname hstrlast hrange hdec
    exact extract_symbols_decoded elf tbl pre1 post1 pre2 post2 symtab strtab funcs hlog hsym
      hsymname hsymlast hstr hstrname hstrlast hrange hlong hdec
  · intro pre e hlog hlt hpre he hrange
    have hsz : e.size % 2 ^ 32 = e.size := Nat.mod_eq_of_lt (by omega)
    rw [rodata_of_partial_split elf s pre e shoff shnum shstrndx strtab h1 h2 h4 h5 hlog hlt
      hpre he, hsz, slice_of_le elf e.off e.size hrange, Option.map_some',
      to_int32_of_lt e.size (by omega)]

set_option maxRecDepth 100000 in
/-- Witness of C14, amended: `data_ro1_shnum9`, whose header announces nine entries while
the buffer ends after the fourth; `extract_rodata` installs the payload of entry 2. -/
theorem header_bounds_not_checked_witness :
    extract_rodata Store.init (some data_ro1_shnum9)
      = some (Store.mk (some ((data_ro1_shnum9.drop 68).take 8)) ((8 : Nat) : Int) 0x3000) :=
  (header_bounds_not_checked data_ro1_shnum9 0 Store.init 104 9 64 3 76
    (by decide) (by decide) (by decide) (by decide) (by decide) (by decide) (by decide)).2.2
    [SectionLine.mk 0 [] 0 0, SectionLine.mk 1 (ascii ".text") 64 4]
    (SectionLine.mk 2 (ascii ".data.ro1") 68 8)
    (by decide) (by decide) (by decide) (by decide) (by decide)

set_option maxRecDepth 100000 in
/-- Counterexample to C15: the identification bytes of `sample_no_magic` are all zero,
not `7f 45 4c 46`, and all three functions return what they return for `sample`. -/
theorem bad_magic_refuted :
    sample_no_magic.take 4 ≠ [0x7f, 0x45, 0x4c, 0x46] ∧
      compile_and_get_text sample_no_magic 0 = some (TextResult.mk (some text32) 32) ∧
      extract_symbols (some sample_no_magic)
        = some (SymbolsResult.found 2 [FuncLine.mk (ascii "main") 0]) ∧
      extract_rodata Store.init (some sample_no_magic)
        = some (Store.mk (some (ascii "hello" ++ zeros 3)) 8 0x3000) := by
  decide

/-- C15, amended. A buffer whose first bytes differ from the expected magic (any
`magic`) is not rejected: no function reads the identification bytes. When the section
listing resolves, `compile_and_get_text` returns the first `".text"` payload,
`extract_symbols` reports the decoded functions and `extract_rodata` installs the first
read-only payload, as for a buffer with the expected magic. -/
theorem magic_not_checked (elf magic : List Byte) (o : Int) (s : Store)
    (tbl : List SectionLine) (_hmagic : elf.take magic.length ≠ magic)
    (hlog : section_log elf = some tbl) (hlong : elf.length < 2 ^ 31) :
    (∀ (pre post : List SectionLine) (e : SectionLine),
        tbl = pre ++ e :: post → (∀ x ∈ pre, x.name.take 5 ≠ dot_text) →
        e.name.take 5 = dot_text → e.off + e.size ≤ elf.length →
        compile_and_get_text elf o
          = some (TextResult.mk (some ((elf.drop e.off).take e.size)) (e.size : Int))) ∧
      (∀ (pre1 post1 pre2 post2 : List SectionLine) (symtab strtab : SectionLine)
        (funcs : List FuncLine),
        tbl = pre1 ++ symtab :: post1 → symtab.name = dot_symtab →
        (∀ x ∈ post1, x.name ≠ dot_symtab) →
        tbl = pre2 ++ strtab :: post2 → strtab.name = dot_strtab →
        (∀ x ∈ post2, x.name ≠ dot_strtab) →
        symtab.off + symtab.size ≤ elf.length →
        decode_function_symbols elf symtab.off symtab.size strtab.off = some funcs →
        extract_symbols (some elf)
          = some (SymbolsResult.found ((symtab.size / 24 : Nat) : Int) funcs)) ∧
      (∀ (pre post : List SectionLine) (e : SectionLine),
        tbl = pre ++ e :: post →
        (∀ x ∈ pre, x.name.take 7 ≠ dot_rodata ∧ x.name.take 8 ≠ dot_data_ro) →
        (e.name.take 7 = dot_rodata ∨ e.name.take 8 = dot_data_ro) →
        e.off + e.size ≤ elf.length →
        extract_rodata s (some elf)
          = some (Store.mk (some ((elf.drop e.off).take e.size)) (e.size : Int)
              s.g_rodata_base)) := by
  refine ⟨?_, ?_, ?_⟩
  · intro pre post e hsplit hpre he hrange
    exact text_of_split elf o tbl pre post e hlog hsplit hpre he hrange hlong
  · intro pre1 post1 pre2 post2 symtab strtab funcs hsym hsymname hsymlast hstr hstrname
      hstrlast hrange hdec
    exact extract_symbols_decoded elf tbl pre1 post1 pre2 post2 symtab strtab funcs hlog hsym
      hsymname hsymlast hstr hstrname hstrlast hrange hlong hdec
  · intro pre post e hsplit hpre he hrange
    exact rodata_of_split elf s tbl pre post e hlog hsplit hpre he hrange hlong

set_option maxRecDepth 100000 in
/-- Witness of C15, amended: `sample_no_magic` and the magic `7f 45 4c 46`; the `".text"`
payload of 32 bytes at 64 is returned. -/
theorem magic_not_checked_witness :
    compile_and_get_text sample_no_magic 0
      = some (TextResult.mk (some ((sample_no_magic.drop 64).take 32)) ((32 : Nat) : Int)) :=
  (magic_not_checked sample_no_magic [0x7f, 0x45, 0x4c, 0x46] 0 Store.init sample_table
    (by decide) (by decide) (by decide)).1
    [SectionLine.mk 0 [] 0 0]
    [SectionLine.mk 2 (ascii ".rodata.str1.1") 96 8, SectionLine.mk 3 (ascii ".symtab") 104 48,
      SectionLine.mk 4 (ascii ".strtab") 152 12, SectionLine.mk 5 (ascii ".shstrtab") 164 48]
    (SectionLine.mk 1 (ascii ".text") 64 32)
    rfl (by decide) (by decide) (by decide)

set_option maxRecDepth 100000 in
/-- Counterexample to C16: the `".text"` section of `one_section ".text" (2 ^ 32 + 4)`
starts at 64 and has `sh_size = 2 ^ 32 + 4`, far beyond the 280 bytes of the buffer, and
the call returns a payload: the four bytes at 64, with `*out_size = 4`. The same holds
for `extract_rodata` on `one_rodata (2 ^ 32 + 4)`. -/
theorem section_out_of_bounds_refuted :
    section_log (one_section ".text" (2 ^ 32 + 4))
        = some [SectionLine.mk 0 [] 0 0, SectionLine.mk 1 (ascii ".text") 64 (2 ^ 32 + 4),
            SectionLine.mk 2 (ascii ".shstrtab") 68 17] ∧
      (one_section ".text" (2 ^ 32 + 4)).length < 64 + (2 ^ 32 + 4) ∧
      compile_and_get_text (one_section ".text" (2 ^ 32 + 4)) 0
        = some (TextResult.mk (some [0x11, 0x22, 0x33, 0x44]) 4) ∧
      section_log (one_rodata (2 ^ 32 + 4))
        = some [SectionLine.mk 0 [] 0 0, SectionLine.mk 1 (ascii ".rodata") 64 (2 ^ 32 + 4),
            SectionLine.mk 2 (ascii ".shstrtab") 68 19] ∧
      (one_rodata (2 ^ 32 + 4)).length < 64 + (2 ^ 32 + 4) ∧
      extract_rodata Store.init (some (one_rodata (2 ^ 32 + 4)))
        = some (Store.mk (some [0x11, 0x22, 0x33, 0x44]) 4 0x3000) := by
  decide

/-- C16, amended. When the range of the selected section exceeds the buffer, no error
result is produced, because the range is not checked: the code copies
`sh_size mod 2 ^ 32` bytes from `sh_offset`. If that many bytes lie inside the buffer
they are returned (installed), fewer than `sh_size`, with the size narrowed to `int`; if not, the copy
reads outside the buffer and the call has no defined result. -/
theorem section_range_not_checked (elf : List Byte) (o : Int) (s : Store)
    (tbl pre post : List SectionLine) (e : SectionLine)
    (hlog : section_log elf = some tbl) (hsplit : tbl = pre ++ e :: post)
    (hover : elf.length < e.off + e.size) :
    ((∀ x ∈ pre, x.name.take 5 ≠ dot_text) → e.name.take 5 = dot_text →
        (e.off + e.size % 2 ^ 32 ≤ elf.length →
          e.size % 2 ^ 32 < e.size ∧
          compile_and_get_text elf o
            = some (TextResult.mk (some ((elf.drop e.off).take (e.size % 2 ^ 32)))
                (to_int32 e.size))) ∧
        (elf.length < e.off + e.size % 2 ^ 32 → compile_and_get_text elf o = none)) ∧
      ((∀ x ∈ pre, x.name.take 7 ≠ dot_rodata ∧ x.name.take 8 ≠ dot_data_ro) →
        (e.name.take 7 = dot_rodata ∨ e.name.take 8 = dot_data_ro) →
        (e.off + e.size % 2 ^ 32 ≤ elf.length →
          e.size % 2 ^ 32 < e.size ∧
          extract_rodata s (some elf)
            = some (Store.mk (some ((elf.drop e.off).take (e.size % 2 ^ 32)))
                (to_int32 e.size) s.g_rodata_base)) ∧
        (elf.length < e.off + e.size % 2 ^ 32 → extract_rodata s (some elf) = none)) := by
  have hshort : e.off + e.size % 2 ^ 32 ≤ elf.length → e.size % 2 ^ 32 < e.size := by
    intro hfit
    have := Nat.mod_le e.size (2 ^ 32)
    omega
  refine ⟨fun hpre he => ⟨fun hfit => ⟨hshort hfit, ?_⟩, fun hout => ?_⟩,
    fun hpre he => ⟨fun hfit => ⟨hshort hfit, ?_⟩, fun hout => ?_⟩⟩
  · rw [text_of_split_narrow elf o tbl pre post e hlog hsplit hpre he,
      slice_of_le elf e.off _ hfit]
    rfl
  · rw [text_of_split_narrow elf o tbl pre post e hlog hsplit hpre he,
      slice_of_lt elf e.off _ hout]
    rfl
  · rw [rodata_of_split_narrow elf s tbl pre post e hlog hsplit hpre he,
      slice_of_le elf e.off _ hfit]
    rfl
  · rw [rodata_of_split_narrow elf s tbl pre post e hlog hsplit hpre he,
      slice_of_lt elf e.off _ hout]
    rfl

set_option maxRecDepth 100000 in
/-- Witness of C16, amended: `one_section ".text" (2 ^ 32 + 4)`, where the four bytes at
64 are returned and `*out_size` is 4. -/
theorem section_range_not_checked_witness :
    (2 ^ 32 + 4) % 2 ^ 32 < 2 ^ 32 + 4 ∧ compile_and_get_text (one_section ".text" (2 ^ 32 + 4)) 0
      = some (TextResult.mk
          (some (((one_section ".text" (2 ^ 32 + 4)).drop 64).take ((2 ^ 32 + 4) % 2 ^ 32)))
          (to_int32 (2 ^ 32 + 4))) :=
  ((section_range_not_checked (one_section ".text" (2 ^ 32 + 4)) 0 Store.init
    [SectionLine.mk 0 [] 0 0, SectionLine.mk 1 (ascii ".text") 64 (2 ^ 32 + 4),
      SectionLine.mk 2 (ascii ".shstrtab") 68 17]
    [SectionLine.mk 0 [] 0 0] [SectionLine.mk 2 (ascii ".shstrtab") 68 17]
    (SectionLine.mk 1 (ascii ".text") 64 (2 ^ 32 + 4))
    (by decide) rfl (by decide)).1 (by decide) (by decide)).1 (by decide)

/-! ## Store life cycle -/

set_option maxRecDepth 100000 in
/-- Counterexample to C17: after `extract_rodata` on `data_ro1` the store is Populated;
a further `extract_rodata` on a container without a read-only-data section, or on a path
that cannot be opened, leaves it Empty, and `get_rodata_data` returns `(NULL, 0)`. -/
theorem populated_to_empty_refuted :
    run Store.init [Call.extract_rodata (some data_ro1)]
        = some (Store.mk (some [1, 2, 3, 4, 5, 6, 7, 8]) 8 0x3000) ∧
      extract_rodata (Store.mk (some [1, 2, 3, 4, 5, 6, 7, 8]) 8 0x3000)
          (some (one_section ".text" 4)) = some (Store.mk none 0 0x3000) ∧
      extract_rodata (Store.mk (some [1, 2, 3, 4, 5, 6, 7, 8]) 8 0x3000) none
        = some (Store.mk none 0 0x3000) ∧
      (get_rodata_data (Store.mk none 0 0x3000)).1 = TextResult.mk none 0 := by
  decide

/-- C17, amended. Every `extract_rodata` call first empties the store. The store after
the call is Populated when the file opens and holds a section whose name starts with
`".rodata"` or `".data.ro"` (Empty to Populated, Populated to Populated); it is Empty
when the file cannot be opened or holds no such section (Empty to Empty, and Populated to
Empty). -/
theorem extract_rodata_transitions (s : Store) (elf : List Byte) (tbl : List SectionLine)
    (hlog : section_log elf = some tbl) :
    (release_rodata s).g_rodata_data = none ∧
      extract_rodata s none = some (release_rodata s) ∧
      ((∀ e ∈ tbl, e.name.take 7 ≠ dot_rodata ∧ e.name.take 8 ≠ dot_data_ro) →
        extract_rodata s (some elf) = some (release_rodata s)) ∧
      (∀ (pre post : List SectionLine) (e : SectionLine), tbl = pre ++ e :: post →
        (∀ x ∈ pre, x.name.take 7 ≠ dot_rodata ∧ x.name.take 8 ≠ dot_data_ro) →
        (e.name.take 7 = dot_rodata ∨ e.name.take 8 = dot_data_ro) →
        e.off + e.size % 2 ^ 32 ≤ elf.length →
        ∃ t, extract_rodata s (some elf) = some t ∧
          t.g_rodata_data = some ((elf.drop e.off).take (e.size % 2 ^ 32))) := by
  refine ⟨release_rodata_data s, rfl, rodata_no_match elf s tbl hlog, ?_⟩
  intro pre post e hsplit hpre he hfit
  refine ⟨Store.mk (some ((elf.drop e.off).take (e.size % 2 ^ 32))) (to_int32 e.size)
    s.g_rodata_base, ?_, rfl⟩
  rw [rodata_of_split_narrow elf s tbl pre post e hlog hsplit hpre he,
    slice_of_le elf e.off _ hfit]
  rfl

set_option maxRecDepth 100000 in
/-- Witness of C17, amended: a Populated store and a container with no read-only-data
section; the store after the call is Empty. -/
theorem extract_rodata_transitions_witness :
    extract_rodata (Store.mk (some [1, 2, 3, 4, 5, 6, 7, 8]) 8 0x3000)
        (some (one_section ".text" 4))
      = some (release_rodata (Store.mk (some [1, 2, 3, 4, 5, 6, 7, 8]) 8 0x3000)) :=
  (extract_rodata_transitions (Store.mk (some [1, 2, 3, 4, 5, 6, 7, 8]) 8 0x3000)
    (one_section ".text" 4)
    [SectionLine.mk 0 [] 0 0, SectionLine.mk 1 (ascii ".text") 64 4,
      SectionLine.mk 2 (ascii ".shstrtab") 68 17] (by decide)).2.2.1 (by decide)

/-- C18. In every store reached from the initial one by calls on files the loader can
hold, a null payload goes with the recorded size 0 and a payload goes with a recorded
size equal to its length; so `get_rodata_data` reports size 0 exactly when it returns
`NULL` or an empty payload. -/
theorem store_size_consistent (cs : List Call) (s : Store)
    (hload : ∀ c ∈ cs, loadable c = true) (hrun : run Store.init cs = some s) :
    (s.g_rodata_data = none → s.g_rodata_size = 0) ∧
      (∀ d, s.g_rodata_data = some d → s.g_rodata_size = (d.length : Int)) ∧
      ((get_rodata_data s).1.out_size = 0 ↔
        ((get_rodata_data s).1.ret = none ∨ (get_rodata_data s).1.ret = some [])) := by
  obtain ⟨hz, hl⟩ := run_size_inv cs Store.init s hrun hload (fun _ => rfl)
    (fun d hd => by simp [Store.init] at hd)
  refine ⟨hz, hl, ?_⟩
  unfold get_rodata_data
  cases hd : s.g_rodata_data with
  | none => simp
  | some d =>
    simp only [hl d hd, Option.some.injEq, false_or, reduceCtorEq]
    constructor
    · intro h
      exact List.length_eq_zero.1 (by exact_mod_cast h)
    · intro h; rw [h]; rfl

set_option maxRecDepth 100000 in
/-- Witness of C18: the store after `extract_rodata` on `sample`, `get_rodata_data`, and
`extract_rodata` on `data_ro1` holds 8 bytes and the size 8. -/
theorem store_size_consistent_witness :
    ((Store.mk (some [1, 2, 3, 4, 5, 6, 7, 8]) 8 0x3000).g_rodata_data = none →
        (Store.mk (some [1, 2, 3, 4, 5, 6, 7, 8]) 8 0x3000).g_rodata_size = 0) ∧
      (∀ d, (Store.mk (some [1, 2, 3, 4, 5, 6, 7, 8]) 8 0x3000).g_rodata_data = some d →
        (Store.mk (some [1, 2, 3, 4, 5, 6, 7, 8]) 8 0x3000).g_rodata_size = (d.length : Int)) ∧
      ((get_rodata_data (Store.mk (some [1, 2, 3, 4, 5, 6, 7, 8]) 8 0x3000)).1.out_size = 0 ↔
        ((get_rodata_data (Store.mk (some [1, 2, 3, 4, 5, 6, 7, 8]) 8 0x3000)).1.ret = none ∨
          (get_rodata_data (Store.mk (some [1, 2, 3, 4, 5, 6, 7, 8]) 8 0x3000)).1.ret
            = some [])) :=
  store_size_consistent
    [Call.extract_rodata (some sample), Call.get_rodata_data,
      Call.extract_rodata (some data_ro1)]
    (Store.mk (some [1, 2, 3, 4, 5, 6, 7, 8]) 8 0x3000) (by decide) (by decide)

/-! ## Integer narrowing and the size output -/

/-- C19. The size of a matched section reaches the caller narrowed to `int`: with the
copy of `sh_size mod 2 ^ 32` bytes inside the buffer, `*out_size` of
`compile_and_get_text` and `g_rodata_size` (hence `*out_size` of `get_rodata_data`) are
`sh_size mod 2 ^ 32` read as a two's-complement 32-bit value, which is `sh_size` exactly
when `sh_size < 2 ^ 31`; and the symbol count is `sh_size / 24` narrowed the same way. -/
theorem sizes_narrowed_to_int (elf : List Byte) (o : Int) (s : Store)
    (tbl : List SectionLine) (hlog : section_log elf = some tbl) :
    (∀ (pre post : List SectionLine) (e : SectionLine), tbl = pre ++ e :: post →
        (∀ x ∈ pre, x.name.take 5 ≠ dot_text) → e.name.take 5 = dot_text →
        e.off + e.size % 2 ^ 32 ≤ elf.length →
        ∃ out, compile_and_get_text elf o = some (TextResult.mk (some out) (to_int32 e.size))) ∧
      (∀ (pre post : List SectionLine) (e : SectionLine), tbl = pre ++ e :: post →
        (∀ x ∈ pre, x.name.take 7 ≠ dot_rodata ∧ x.name.take 8 ≠ dot_data_ro) →
        (e.name.take 7 = dot_rodata ∨ e.name.take 8 = dot_data_ro) →
        e.off + e.size % 2 ^ 32 ≤ elf.length →
        ∃ t, extract_rodata s (some elf) = some t ∧ t.g_rodata_size = to_int32 e.size ∧
          (get_rodata_data t).1.out_size = to_int32 e.size) ∧
      (∀ (pre1 post1 pre2 post2 : List SectionLine) (symtab strtab : SectionLine)
        (funcs : List FuncLine),
        tbl = pre1 ++ symtab :: post1 → symtab.name = dot_symtab →
        (∀ x ∈ post1, x.name ≠ dot_symtab) →
        tbl = pre2 ++ strtab :: post2 → strtab.name = dot_strtab →
        (∀ x ∈ post2, x.name ≠ dot_strtab) →
        symtab.off + 24 * (to_int32 (symtab.size / 24)).toNat ≤ elf.length →
        decode_function_symbols elf symtab.off (24 * (to_int32 (symtab.size / 24)).toNat)
          strtab.off = some funcs →
        extract_symbols (some elf)
          = some (SymbolsResult.found (to_int32 (symtab.size / 24)) funcs)) ∧
      (∀ n : Nat, to_int32 n
        = if n % 2 ^ 32 < 2 ^ 31 then ((n % 2 ^ 32 : Nat) : Int)
          else ((n % 2 ^ 32 : Nat) : Int) - 2 ^ 32) ∧
      (∀ n : Nat, to_int32 n = (n : Int) ↔ n < 2 ^ 31) := by
  refine ⟨?_, ?_, ?_, fun _ => rfl, to_int32_eq_iff⟩
  · intro pre post e hsplit hpre he hfit
    refine ⟨(elf.drop e.off).take (e.size % 2 ^ 32), ?_⟩
    rw [text_of_split_narrow elf o tbl pre post e hlog hsplit hpre he,
      slice_of_le elf e.off _ hfit]
    rfl
  · intro pre post e hsplit hpre he hfit
    refine ⟨Store.mk (some ((elf.drop e.off).take (e.size % 2 ^ 32))) (to_int32 e.size)
      s.g_rodata_base, ?_, rfl, rfl⟩
    rw [rodata_of_split_narrow elf s tbl pre post e hlog hsplit hpre he,
      slice_of_le elf e.off _ hfit]
    rfl
  · intro pre1 post1 pre2 post2 symtab strtab funcs hsym hsymname hsymlast hstr hstrname
      hstrlast hfit hdec
    have hrep := report_symbols_spec elf symtab.off strtab.off
      (to_int32 (symtab.size / 24)).toNat 0 (by omega)
    rw [← List.range_eq_range'] at hrep
    have hq : 24 * (to_int32 (symtab.size / 24)).toNat / 24
        = (to_int32 (symtab.size / 24)).toNat := by omega
    unfold decode_function_symbols at hdec
    rw [hq, ← hrep] at hdec
    rw [extract_symbols_of_tables elf tbl pre1 post1 pre2 post2 symtab strtab hlog hsym
      hsymname hsymlast hstr hstrname hstrlast, hdec]
    rfl

set_option maxRecDepth 100000 in
/-- Witness of C19: a `".text"` section with `sh_size = 2 ^ 32 + 4` gives `*out_size = 4`,
and a `".symtab"` with `sh_size = 24 * (2 ^ 32 + 1)` gives the symbol count 1. -/
theorem sizes_narrowed_to_int_witness :
    (∃ out, compile_and_get_text (one_section ".text" (2 ^ 32 + 4)) 0
        = some (TextResult.mk (some out) (to_int32 (2 ^ 32 + 4)))) ∧
      extract_symbols (some (symtab_sized (24 * (2 ^ 32 + 1))))
        = some (SymbolsResult.found (to_int32 (24 * (2 ^ 32 + 1) / 24))
            [FuncLine.mk (ascii "first") 0x10]) :=
  ⟨(sizes_narrowed_to_int (one_section ".text" (2 ^ 32 + 4)) 0 Store.init
      [SectionLine.mk 0 [] 0 0, SectionLine.mk 1 (ascii ".text") 64 (2 ^ 32 + 4),
        SectionLine.mk 2 (ascii ".shstrtab") 68 17] (by decide)).1
      [SectionLine.mk 0 [] 0 0] [SectionLine.mk 2 (ascii ".shstrtab") 68 17]
      (SectionLine.mk 1 (ascii ".text") 64 (2 ^ 32 + 4)) rfl (by decide) (by decide)
      (by decide),
    (sizes_narrowed_to_int (symtab_sized (24 * (2 ^ 32 + 1))) 0 Store.init
      (symtab_sized_table (24 * (2 ^ 32 + 1))) (by decide)).2.2.1
      [SectionLine.mk 0 [] 0 0]
      [SectionLine.mk 2 (ascii ".strtab") 112 14, SectionLine.mk 3 (ascii ".shstrtab") 126 27]
      [SectionLine.mk 0 [] 0 0, SectionLine.mk 1 (ascii ".symtab") 64 (24 * (2 ^ 32 + 1))]
      [SectionLine.mk 3 (ascii ".shstrtab") 126 27]
      (SectionLine.mk 1 (ascii ".symtab") 64 (24 * (2 ^ 32 + 1)))
      (SectionLine.mk 2 (ascii ".strtab") 112 14) [FuncLine.mk (ascii "first") 0x10]
      rfl (by decide) (by decide) rfl (by decide) (by decide) (by decide) (by decide)⟩

/-- C20. When no section name starts with `".text"`, `compile_and_get_text` returns
`NULL` and `*out_size` keeps the value `o` it had before the call, whatever `o` is;
`get_rodata_data` on a store with a null payload returns `NULL` and sets `*out_size` to 0,
whatever the recorded size is. -/
theorem not_found_size_output (elf : List Byte) (tbl : List SectionLine)
    (hlog : section_log elf = some tbl) (hnone : ∀ e ∈ tbl, e.name.take 5 ≠ dot_text) :
    (∀ o : Int, compile_and_get_text elf o = some (TextResult.mk none o)) ∧
      ∀ (size : Int) (base : Nat),
        (get_rodata_data (Store.mk none size base)).1 = TextResult.mk none 0 :=
  ⟨fun o => text_no_match elf o tbl hlog hnone, fun _ _ => rfl⟩

set_option maxRecDepth 100000 in
/-- Witness of C20: a container without a `".text"` section, with `*out_size` holding 7
and then -3 before the call. -/
theorem not_found_size_output_witness :
    compile_and_get_text (one_section ".data" 4) 7 = some (TextResult.mk none 7) ∧
      compile_and_get_text (one_section ".data" 4) (-3) = some (TextResult.mk none (-3)) :=
  ⟨(not_found_size_output (one_section ".data" 4)
      [SectionLine.mk 0 [] 0 0, SectionLine.mk 1 (ascii ".data") 64 4,
        SectionLine.mk 2 (ascii ".shstrtab") 68 17] (by decide) (by decide)).1 7,
    (not_found_size_output (one_section ".data" 4)
      [SectionLine.mk 0 [] 0 0, SectionLine.mk 1 (ascii ".data") 64 4,
        SectionLine.mk 2 (ascii ".shstrtab") 68 17] (by decide) (by decide)).1 (-3)⟩

end Tcc
